import Mathlib

/-!
Verification development for the CLEVR-style scene generator in
render_images.py (the only source file of the repository).

The embedding below translates the algorithmic core of the source:

* add_random_objects (rejection-sampling placement with whole-batch
  restart, attribute sampling, catalog lookup, scene-graph calls);
* compute_all_relationships (directional relation inference);
* the camera loop of render_scene (height tiers times azimuth steps);
* the driving loop of render_scene (conditional placement, per-frame
  renders).

Randomness is modelled by an explicit oracle: a stream of rational
unit-interval draws (for random.random / random.uniform) and a stream of
naturals (for random.choice, taken modulo the list length).  Calls into
Blender (utils.add_object, utils.add_material, utils.delete_object, the
renderer) are modelled as an emitted event trace plus an abstract
environment Ext giving the location the scene graph assigns to a handle
and the camera projection.  Python exceptions are modelled by Except; the
unbounded restart recursion of add_random_objects is modelled with an
explicit fuel parameter (running out of fuel is an error distinct from
every behaviour of the source).

Numbers: all drawn quantities are rationals.  The only irrational values
the source manipulates are the cube radius r / math.sqrt(2) and the
planar distance math.sqrt(dx*dx + dy*dy).  Radii therefore live in the
ring Q2 of numbers a + b * sqrt 2 with a b rational, represented exactly;
the distance comparison of the source is defined literally over the reals
and given a proved-correct Decidable instance, which keeps the whole
placement algorithm executable.
-/

/-- Numbers of the form a + b * sqrt 2 with rational a, b.  Exact
representation for object radii (a drawn size, possibly divided by
sqrt 2 for cubes). -/
structure Q2 where
  a : ℚ
  b : ℚ
deriving DecidableEq, Repr

/-- The real number denoted by a Q2 value. -/
noncomputable def Q2.toReal (p : Q2) : ℝ := (p.a : ℝ) + (p.b : ℝ) * Real.sqrt 2

/-- Embed a rational as a Q2 value. -/
def Q2.ofRat (q : ℚ) : Q2 := ⟨q, 0⟩

/-- Addition on Q2. -/
def Q2.add (p q : Q2) : Q2 := ⟨p.a + q.a, p.b + q.b⟩

/-- Subtraction on Q2. -/
def Q2.sub (p q : Q2) : Q2 := ⟨p.a - q.a, p.b - q.b⟩

/-- Multiplication on Q2: (a + b s)(c + d s) = (ac + 2bd) + (ad + bc) s
for s = sqrt 2. -/
def Q2.mul (p q : Q2) : Q2 := ⟨p.a * q.a + 2 * (p.b * q.b), p.a * q.b + p.b * q.a⟩

/-- Division by sqrt 2: (a + b s) / s = b + (a / 2) s for s = sqrt 2.
This is the exact counterpart of the source line r /= math.sqrt(2). -/
def Q2.divSqrt2 (p : Q2) : Q2 := ⟨p.b, p.a / 2⟩

/-- Decision procedure for strict positivity of a + b * sqrt 2, by sign
analysis and squaring. -/
def Q2.posB (p : Q2) : Bool :=
  if 0 ≤ p.a then
    if 0 ≤ p.b then decide (0 < p.a ∨ 0 < p.b)
    else decide (2 * p.b ^ 2 < p.a ^ 2)
  else
    decide (0 ≤ p.b ∧ p.a ^ 2 < 2 * p.b ^ 2)

/-- Decision procedure for strict comparison of Q2 values. -/
def Q2.ltB (p q : Q2) : Bool := (q.sub p).posB

theorem Q2.toReal_ofRat (q : ℚ) : (Q2.ofRat q).toReal = (q : ℝ) := by
  simp [Q2.toReal, Q2.ofRat]

theorem Q2.toReal_add (p q : Q2) : (p.add q).toReal = p.toReal + q.toReal := by
  simp only [Q2.toReal, Q2.add]
  push_cast
  ring

theorem Q2.toReal_sub (p q : Q2) : (p.sub q).toReal = p.toReal - q.toReal := by
  simp only [Q2.toReal, Q2.sub]
  push_cast
  ring

theorem Q2.toReal_mul (p q : Q2) : (p.mul q).toReal = p.toReal * q.toReal := by
  have hs : Real.sqrt 2 * Real.sqrt 2 = 2 := Real.mul_self_sqrt (by norm_num)
  simp only [Q2.toReal, Q2.mul]
  push_cast
  linear_combination (-((p.b : ℝ) * (q.b : ℝ))) * hs

theorem Q2.toReal_divSqrt2 (p : Q2) : p.divSqrt2.toReal = p.toReal / Real.sqrt 2 := by
  have hs : Real.sqrt 2 * Real.sqrt 2 = 2 := Real.mul_self_sqrt (by norm_num)
  have hs0 : (0 : ℝ) < Real.sqrt 2 := Real.sqrt_pos.mpr (by norm_num)
  simp only [Q2.toReal, Q2.divSqrt2]
  rw [eq_div_iff (ne_of_gt hs0)]
  push_cast
  linear_combination ((p.a : ℝ) / 2) * hs

theorem Q2.posB_iff (p : Q2) : p.posB = true ↔ 0 < p.toReal := by
  have hs : Real.sqrt 2 * Real.sqrt 2 = 2 := Real.mul_self_sqrt (by norm_num)
  have hs0 : (0 : ℝ) < Real.sqrt 2 := Real.sqrt_pos.mpr (by norm_num)
  rcases p with ⟨a, b⟩
  simp only [Q2.posB, Q2.toReal]
  split_ifs with ha hb
  · simp only [decide_eq_true_eq]
    constructor
    · rintro (h | h)
      · have hb2 : (0 : ℝ) ≤ (b : ℝ) * Real.sqrt 2 := by
          apply mul_nonneg _ (le_of_lt hs0)
          exact_mod_cast hb
        have : (0 : ℝ) < (a : ℝ) := by exact_mod_cast h
        linarith
      · have ha2 : (0 : ℝ) ≤ (a : ℝ) := by exact_mod_cast ha
        have : (0 : ℝ) < (b : ℝ) := by exact_mod_cast h
        nlinarith
    · intro h
      by_contra hc
      push_neg at hc
      have h1 : a = 0 := le_antisymm hc.1 ha
      have h2 : b = 0 := le_antisymm hc.2 hb
      rw [h1, h2] at h
      simp at h
  · push_neg at hb
    simp only [decide_eq_true_eq]
    have haR : (0 : ℝ) ≤ (a : ℝ) := by exact_mod_cast ha
    have hbR : (b : ℝ) < 0 := by exact_mod_cast hb
    have hmb : (0 : ℝ) < -(b : ℝ) * Real.sqrt 2 := mul_pos (by linarith) hs0
    constructor
    · intro h
      have hR : 2 * (b : ℝ) ^ 2 < (a : ℝ) ^ 2 := by exact_mod_cast h
      nlinarith
    · intro h
      have h2 : (0 : ℝ) < (a : ℝ) - (b : ℝ) * Real.sqrt 2 := by nlinarith
      have h3 := mul_pos h h2
      have hR : 2 * (b : ℝ) ^ 2 < (a : ℝ) ^ 2 := by nlinarith
      exact_mod_cast hR
  · push_neg at ha
    simp only [decide_eq_true_eq]
    have haR : (a : ℝ) < 0 := by exact_mod_cast ha
    constructor
    · rintro ⟨hb, h⟩
      have hbR : (0 : ℝ) ≤ (b : ℝ) := by exact_mod_cast hb
      have hR : (a : ℝ) ^ 2 < 2 * (b : ℝ) ^ 2 := by exact_mod_cast h
      by_contra hc
      push_neg at hc
      have h4 : (b : ℝ) * Real.sqrt 2 ≤ -(a : ℝ) := by linarith
      have h5 : ((b : ℝ) * Real.sqrt 2) * ((b : ℝ) * Real.sqrt 2) ≤ (-(a : ℝ)) * (-(a : ℝ)) :=
        mul_self_le_mul_self (by positivity) h4
      nlinarith
    · intro h
      have hbR : (0 : ℝ) ≤ (b : ℝ) := by
        by_contra hc
        push_neg at hc
        have : (b : ℝ) * Real.sqrt 2 ≤ 0 := by nlinarith
        linarith
      refine ⟨by exact_mod_cast hbR, ?_⟩
      have hR : (a : ℝ) ^ 2 < 2 * (b : ℝ) ^ 2 := by nlinarith
      exact_mod_cast hR

theorem Q2.ltB_iff (p q : Q2) : p.ltB q = true ↔ p.toReal < q.toReal := by
  rw [Q2.ltB, Q2.posB_iff, Q2.toReal_sub]
  constructor <;> intro h <;> linarith

/-- The planar distance computed at source line 335:
dist = math.sqrt(dx * dx + dy * dy). -/
noncomputable def planarDist (x y xx yy : ℚ) : ℝ :=
  Real.sqrt (((x : ℝ) - (xx : ℝ)) * ((x : ℝ) - (xx : ℝ)) +
    ((y : ℝ) - (yy : ℝ)) * ((y : ℝ) - (yy : ℝ)))

/-- The rejection test of source line 336: dist - r - rr < args.min_dist,
for a candidate (x, y) with current radius r against a previously
accepted (xx, yy, rr). -/
def tooClose (minDist : ℚ) (x y : ℚ) (r : Q2) (xx yy : ℚ) (rr : Q2) : Prop :=
  planarDist x y xx yy - r.toReal - rr.toReal < (minDist : ℝ)

/-- The real comparison of the source is decided exactly: for
s = minDist + r + rr, sqrt d2 - r - rr < minDist iff 0 < s and d2 < s^2,
all of which are rational / Q2 computations. -/
instance tooCloseDec (minDist : ℚ) (x y : ℚ) (r : Q2) (xx yy : ℚ) (rr : Q2) :
    Decidable (tooClose minDist x y r xx yy rr) :=
  decidable_of_iff
    (((Q2.ofRat minDist).add (r.add rr)).posB = true ∧
      (Q2.ofRat ((x - xx) * (x - xx) + (y - yy) * (y - yy))).ltB
        (((Q2.ofRat minDist).add (r.add rr)).mul ((Q2.ofRat minDist).add (r.add rr))) = true)
    (by
      rw [Q2.posB_iff, Q2.ltB_iff, Q2.toReal_mul, Q2.toReal_add, Q2.toReal_add,
        Q2.toReal_ofRat, Q2.toReal_ofRat]
      unfold tooClose planarDist
      have hd2 : ((((x - xx) * (x - xx) + (y - yy) * (y - yy) : ℚ)) : ℝ) =
          ((x : ℝ) - (xx : ℝ)) * ((x : ℝ) - (xx : ℝ)) +
            ((y : ℝ) - (yy : ℝ)) * ((y : ℝ) - (yy : ℝ)) := by
        push_cast
        ring
      rw [hd2]
      set D : ℝ := ((x : ℝ) - (xx : ℝ)) * ((x : ℝ) - (xx : ℝ)) +
        ((y : ℝ) - (yy : ℝ)) * ((y : ℝ) - (yy : ℝ)) with hD
      set s : ℝ := (minDist : ℝ) + (r.toReal + rr.toReal) with hsdef
      constructor
      · rintro ⟨hpos, hlt⟩
        have : Real.sqrt D < s := by
          rw [Real.sqrt_lt' hpos]
          nlinarith
        linarith
      · intro h
        have hsq : Real.sqrt D < s := by linarith
        have hpos : 0 < s := lt_of_le_of_lt (Real.sqrt_nonneg D) hsq
        refine ⟨hpos, ?_⟩
        have := (Real.sqrt_lt' hpos).mp hsq
        nlinarith)

/-- Oracle for Python's random module: us is the stream of unit-interval
draws consumed by random.random / random.uniform, ns the stream of
naturals consumed by random.choice (reduced modulo the list length).
ui and ni index the next unread element of each stream. -/
structure Rng where
  us : ℕ → ℚ
  ns : ℕ → ℕ
  ui : ℕ
  ni : ℕ

/-- Consume one unit-interval draw. -/
def Rng.nextU (g : Rng) : ℚ × Rng := (g.us g.ui, ⟨g.us, g.ns, g.ui + 1, g.ni⟩)

/-- Consume one natural draw. -/
def Rng.nextN (g : Rng) : ℕ × Rng := (g.ns g.ni, ⟨g.us, g.ns, g.ui, g.ni + 1⟩)

/-- random.choice(l): uniform element of l, IndexError (none) when l is
empty.  Reducing the drawn natural modulo the length realises a uniform
choice; on the empty list n % 0 = n and get? returns none. -/
def pyChoice {α : Type} (l : List α) (n : ℕ) : Option α := l.get? (n % l.length)

/-- Stateful random.choice. -/
def Rng.choice {α : Type} (g : Rng) (l : List α) : Option α × Rng :=
  let (n, g1) := g.nextN
  (pyChoice l n, g1)

/-- random.uniform(a, b) realised from a unit draw u. -/
def pyUniform (a b u : ℚ) : ℚ := a + (b - a) * u

/-- Calls issued to the external scene graph and renderer (the utils and
bpy collaborators).  relInfer marks an invocation of
compute_all_relationships; the vocabulary is needed to state how often
render_scene performs relationship inference. -/
inductive Ev where
  | addObj (id : ℕ)
  | addMat (name : String)
  | delObj (id : ℕ)
  | render (idx : ℕ)
  | invokePlace
  | relInfer
deriving DecidableEq, Repr

/-- Failures of the embedded code.  emptyChoice is random.choice on an
empty list (IndexError); shapeNotFound is [k for k, v in object_mapping
if v == obj_name_out][0] on an empty comprehension (IndexError);
colorNotFound is the color_name_to_rgba[color_name] KeyError; fuelOut is
the model's bound on the restart recursion of add_random_objects, which
is unbounded in the source. -/
inductive Err where
  | emptyChoice
  | shapeNotFound
  | colorNotFound
  | fuelOut
deriving DecidableEq, Repr

/-- The parsed properties.json catalog: colors as name to rgb triple,
materials and shapes as CLEVR name to blender name, sizes as name to
scale factor.  Dicts are modelled as association lists in insertion
order. -/
structure Properties where
  colors : List (String × (ℚ × ℚ × ℚ))
  materials : List (String × String)
  shapes : List (String × String)
  sizes : List (String × ℚ)

abbrev Rgba := ℚ × ℚ × ℚ × ℚ

/-- Source lines 294-297: rgba = [float(c) / 255.0 for c in rgb] + [1.0]. -/
def color_name_to_rgba (pr : Properties) : List (String × Rgba) :=
  pr.colors.map (fun p => (p.1, (p.2.1 / 255, p.2.2.1 / 255, p.2.2.2 / 255, 1)))

/-- Source line 298: material_mapping = [(v, k) for k, v in ...]. -/
def material_mapping (pr : Properties) : List (String × String) :=
  pr.materials.map (fun p => (p.2, p.1))

/-- Source line 299: object_mapping = [(v, k) for k, v in ...]. -/
def object_mapping (pr : Properties) : List (String × String) :=
  pr.shapes.map (fun p => (p.2, p.1))

/-- Source line 300: size_mapping = list(properties['sizes'].items()). -/
def size_mapping (pr : Properties) : List (String × ℚ) := pr.sizes

/-- One entry of the positions list of add_random_objects:
(x, y, r) with r the recorded collision radius (source line 366). -/
abbrev Pos := ℚ × ℚ × Q2

/-- One record of the objects list of add_random_objects (source lines
374-382); field names follow the dict keys, 3d_coords is coords_3d. -/
structure PlacedObj where
  shape : String
  size : String
  material : String
  coords_3d : ℚ × ℚ × ℚ
  rotation : ℚ
  pixel_coords : ℚ × ℚ
  color : String
deriving DecidableEq, Repr

/-- A handle of the external scene graph, enriched with the arguments of
the utils.add_object call that created it and (ghost, for specification
only) the raw drawn size scale before the cube adjustment. -/
structure BObj where
  id : ℕ
  shape : String
  r : Q2
  x : ℚ
  y : ℚ
  theta : ℚ
  drawnSize : ℚ
deriving DecidableEq, Repr

/-- Abstract external environment: loc id is the location the scene
graph reports for handle id (obj.location), cam is
utils.get_camera_coords for the scene camera. -/
structure ExtEnv where
  loc : ℕ → ℚ × ℚ × ℚ
  cam : ℚ × ℚ × ℚ → ℚ × ℚ

/-- The argparse options consumed by the embedded code.  margin is
declared at source lines 73-76 ("all objects will be at least this
distance apart along all cardinal directions") but, unlike in upstream
CLEVR, is never read by any code of this repository. -/
structure Args where
  min_dist : ℚ
  margin : ℚ
  max_retries : ℕ
  num_cams : ℕ

/-- The dists_good flag of source lines 332-338: the candidate (x, y)
with current (pre-adjustment) radius r passes against every previously
accepted (xx, yy, rr). -/
def dists_good (minDist : ℚ) (positions : List Pos) (x y : ℚ) (r : Q2) : Prop :=
  ∀ p ∈ positions, ¬ tooClose minDist x y r p.1 p.2.1 p.2.2

instance (minDist : ℚ) (positions : List Pos) (x y : ℚ) (r : Q2) :
    Decidable (dists_good minDist positions x y r) := by
  unfold dists_good
  infer_instance

/-- The while-loop of source lines 319-341 for one slot.  The fuel k is
the number of draw attempts still allowed: the counter check num_tries >
args.max_retries happens before drawing, so the loop draws at most
max_retries candidates and otherwise signals exhaustion (none), which
the caller turns into the whole-batch restart. -/
def try_place (minDist : ℚ) (positions : List Pos) (r : ℚ) :
    ℕ → Rng → Option (ℚ × ℚ) × Rng
  | 0, g => (none, g)
  | k + 1, g =>
    let (ux, g1) := g.nextU
    let (uy, g2) := g1.nextU
    let x := pyUniform (-3) 3 ux
    let y := pyUniform (-3) 3 uy
    if dists_good minDist positions x y (Q2.ofRat r) then (some (x, y), g2)
    else try_place minDist positions r k g2

/-- Source lines 344-352: choose the shape and color, either
independently from the catalogs or through the shape to allowed-colors
restriction table.  Returns ((obj_name, obj_name_out),
(color_name, rgba)). -/
def choose_shape_color (pr : Properties)
    (combos : Option (List (String × List String))) (g : Rng) :
    Except Err ((String × String) × (String × Rgba)) × Rng :=
  match combos with
  | none =>
    match g.choice (object_mapping pr) with
    | (none, g1) => (.error .emptyChoice, g1)
    | (some shapePair, g1) =>
      match g1.choice (color_name_to_rgba pr) with
      | (none, g2) => (.error .emptyChoice, g2)
      | (some colorPair, g2) => (.ok (shapePair, colorPair), g2)
  | some cs =>
    match g.choice cs with
    | (none, g1) => (.error .emptyChoice, g1)
    | (some entry, g1) =>
      match g1.choice entry.2 with
      | (none, g2) => (.error .emptyChoice, g2)
      | (some color_name, g2) =>
        match (List.filter (fun p => p.2 == entry.1) (object_mapping pr)).head? with
        | none => (.error .shapeNotFound, g2)
        | some shapePair =>
          match (color_name_to_rgba pr).lookup color_name with
          | none => (.error .colorNotFound, g2)
          | some rgba => (.ok ((shapePair.1, entry.1), (color_name, rgba)), g2)

/-- Result of one round of the slot loop (source lines 311-382 without
the restart): success with the three accumulated lists, exhaustion of
the per-slot retries (carrying the handles placed so far, which the
restart must delete), or a propagated exception. -/
inductive RoundRes where
  | ok (objs : List PlacedObj) (bos : List BObj) (poss : List Pos)
  | exhausted (bos : List BObj)
  | err (e : Err)
deriving DecidableEq, Repr

/-- Output state of the slot loop and of add_random_objects. -/
structure SlotsOut where
  trace : List Ev
  res : RoundRes
  nextId : ℕ
  g : Rng

/-- The for-loop over slots, source lines 311-382.  Arguments after ext:
slots still to place, objects / blender_objects / positions accumulated
so far, the next fresh scene-graph handle id, the random oracle. -/
def place_slots (pr : Properties) (combos : Option (List (String × List String)))
    (args : Args) (ext : ExtEnv) :
    ℕ → List PlacedObj → List BObj → List Pos → ℕ → Rng → SlotsOut
  | 0, objs, bos, poss, nid, g => ⟨[], .ok objs bos poss, nid, g⟩
  | n + 1, objs, bos, poss, nid, g =>
    match g.choice (size_mapping pr) with
    | (none, g1) => ⟨[], .err .emptyChoice, nid, g1⟩
    | (some sz, g1) =>
      match try_place args.min_dist poss sz.2 args.max_retries g1 with
      | (none, g2) => ⟨[], .exhausted bos, nid, g2⟩
      | (some (x, y), g2) =>
        match choose_shape_color pr combos g2 with
        | (.error e, g3) => ⟨[], .err e, nid, g3⟩
        | (.ok (shapePair, colorPair), g3) =>
          let r2 : Q2 := if shapePair.1 = "Cube" then (Q2.ofRat sz.2).divSqrt2
            else Q2.ofRat sz.2
          let (uth, g4) := g3.nextU
          let theta := 360 * uth
          let bo : BObj := ⟨nid, shapePair.1, r2, x, y, theta, sz.2⟩
          match g4.choice (material_mapping pr) with
          | (none, g5) => ⟨[.addObj nid], .err .emptyChoice, nid + 1, g5⟩
          | (some matPair, g5) =>
            let coords := ext.loc nid
            let ob : PlacedObj :=
              ⟨shapePair.2, sz.1, matPair.2, coords, theta, ext.cam coords, colorPair.1⟩
            let rest := place_slots pr combos args ext n
              (objs ++ [ob]) (bos ++ [bo]) (poss ++ [(x, y, r2)]) (nid + 1) g5
            ⟨.addObj nid :: .addMat matPair.1 :: rest.trace, rest.res, rest.nextId, rest.g⟩

/-- Output of add_random_objects: the event trace and either the pair
returned at source line 395 (objects, blender_objects) together with the
final positions list, or a failure. -/
structure AOut where
  trace : List Ev
  res : Except Err (List PlacedObj × List BObj × List Pos)
  nextId : ℕ
  g : Rng

/-- add_random_objects, source lines 285-395.  fuel bounds the restart
recursion of lines 324-327: on exhaustion all handles placed so far are
deleted and the whole placement restarts from scratch. -/
def add_random_objects (pr : Properties) (combos : Option (List (String × List String)))
    (args : Args) (ext : ExtEnv) (num_objects : ℕ) :
    ℕ → ℕ → Rng → AOut
  | 0, nid, g => ⟨[], .error .fuelOut, nid, g⟩
  | fuel + 1, nid, g =>
    let s := place_slots pr combos args ext num_objects [] [] [] nid g
    match s.res with
    | .ok objs bos poss => ⟨s.trace, .ok (objs, bos, poss), s.nextId, s.g⟩
    | .err e => ⟨s.trace, .error e, s.nextId, s.g⟩
    | .exhausted bos =>
      let rest := add_random_objects pr combos args ext num_objects fuel
        s.nextId s.g
      ⟨s.trace ++ bos.map (fun b => .delObj b.id) ++ rest.trace, rest.res, rest.nextId, rest.g⟩

/-- The scene_struct dict of source lines 216-222 (the fields the core
reads; image_filename stays None and is omitted). -/
structure SceneStruct where
  split : String
  image_index : ℕ
  objects : List PlacedObj
  directions : List (String × (ℚ × ℚ × ℚ))

/-- Componentwise difference of 3d coordinate triples, source line 417. -/
def sub3 (u v : ℚ × ℚ × ℚ) : ℚ × ℚ × ℚ := (u.1 - v.1, u.2.1 - v.2.1, u.2.2 - v.2.2)

/-- Dot product of source line 418. -/
def dot3 (u v : ℚ × ℚ × ℚ) : ℚ := u.1 * v.1 + u.2.1 * v.2.1 + u.2.2 * v.2.2

/-- The body of the inner loop of compute_all_relationships (source
lines 414-420): index j is related to obj1 when the object at j differs
from obj1 (the source skips on dict equality, not index equality) and
the displacement dot the direction vector strictly exceeds eps. -/
def relatedPred (objs : List PlacedObj) (o1 : PlacedObj) (vec : ℚ × ℚ × ℚ)
    (eps : ℚ) (j : ℕ) : Bool :=
  match objs[j]? with
  | none => false
  | some o2 => decide (¬ o2 = o1 ∧ eps < dot3 (sub3 o2.coords_3d o1.coords_3d) vec)

/-- sorted(list(related)) of source line 421: the indices passing
relatedPred in increasing order (filtering the ascending range yields
exactly the sorted list of the set built by the source). -/
def related (objs : List PlacedObj) (o1 : PlacedObj) (vec : ℚ × ℚ × ℚ)
    (eps : ℚ) : List ℕ :=
  (List.range objs.length).filter (relatedPred objs o1 vec eps)

/-- The per-direction table of source lines 411-421, indexed like
enumerate(scene_struct['objects']). -/
def relations_for (objs : List PlacedObj) (vec : ℚ × ℚ × ℚ) (eps : ℚ) :
    List (List ℕ) :=
  objs.map (fun o1 => related objs o1 vec eps)

/-- compute_all_relationships, source lines 398-422 (eps defaults to 0.2
at the source call sites; it is a parameter here).  The directions dict
is traversed in order, skipping the names above and below. -/
def compute_all_relationships (scene : SceneStruct) (eps : ℚ) :
    List (String × List (List ℕ)) :=
  (scene.directions.filter (fun d => !(d.1 == "above" || d.1 == "below"))).map
    (fun d => (d.1, relations_for scene.objects d.2 eps))

/-- num_heights, source line 242. -/
def num_heights : ℕ := 8

/-- The polar angle of tier j, source line 248:
phi = math.pi * 3 / 10 / num_heights * (j + 1). -/
noncomputable def camera_phi (j : ℕ) : ℝ :=
  Real.pi * 3 / 10 / (num_heights : ℝ) * ((j : ℝ) + 1)

/-- The azimuthal angle of shot i, source lines 253-256:
(2 * i - 1) / args.num_cams * num_heights * pi. -/
noncomputable def camera_azimuth (num_cams i : ℕ) : ℝ :=
  (2 * (i : ℝ) - 1) / (num_cams : ℝ) * (num_heights : ℝ) * Real.pi

/-- The camera position written at source lines 249 and 253-256:
(10 cos az sin phi, 10 sin az sin phi, 10 cos phi). -/
noncomputable def camera_pos (num_cams j i : ℕ) : ℝ × ℝ × ℝ :=
  (10 * Real.cos (camera_azimuth num_cams i) * Real.sin (camera_phi j),
    10 * Real.sin (camera_azimuth num_cams i) * Real.sin (camera_phi j),
    10 * Real.cos (camera_phi j))

/-- The positions produced within one height tier: the inner loop of
source line 250 runs for i in range(args.num_cams // num_heights). -/
noncomputable def tier_poses (num_cams j : ℕ) : List (ℝ × ℝ × ℝ) :=
  (List.range (num_cams / num_heights)).map (camera_pos num_cams j)

/-- All camera positions produced by the double loop of source lines
247-256, in iteration order. -/
noncomputable def camera_poses (num_cams : ℕ) : List (ℝ × ℝ × ℝ) :=
  ((List.range num_heights).map (tier_poses num_cams)).flatten

/-- The iteration space of the camera double loop: (tier j, shot i)
pairs in execution order. -/
def render_iters (num_cams : ℕ) : List (ℕ × ℕ) :=
  ((List.range num_heights).map
    (fun j => (List.range (num_cams / num_heights)).map (fun i => (j, i)))).flatten

/-- The body of the camera double loop of render_scene, source lines
247-276.  State: the objects variable (None until add_random_objects
runs, source line 241), the size of bpy.data.objects, the next fresh
handle id, the random oracle.  Each iteration first runs
add_random_objects when exactly 7 objects are in the blender scene
(source lines 259-261), then renders one frame (the while-try loop of
lines 263-274 absorbs renderer exceptions, so one render event is
emitted per iteration).  Exceptions from add_random_objects propagate. -/
def render_loop (pr : Properties) (combos : Option (List (String × List String)))
    (args : Args) (ext : ExtEnv) (fuel num_objects : ℕ) :
    List (ℕ × ℕ) → Option (List PlacedObj) → ℕ → ℕ → Rng →
      List Ev × Except Err (Option (List PlacedObj) × ℕ)
  | [], objects, count, _, _ => ([], .ok (objects, count))
  | (j, i) :: rest, objects, count, nid, g =>
    if count = 7 then
      let a := add_random_objects pr combos args ext num_objects fuel nid g
      match a.res with
      | .error e => (Ev.invokePlace :: a.trace, .error e)
      | .ok (objs, bos, _) =>
        let out := render_loop pr combos args ext fuel num_objects rest (some objs)
          (count + bos.length) a.nextId a.g
        (Ev.invokePlace :: (a.trace ++ Ev.render (args.num_cams / num_heights * j + i) :: out.1),
          out.2)
    else
      let out := render_loop pr combos args ext fuel num_objects rest objects count nid g
      (Ev.render (args.num_cams / num_heights * j + i) :: out.1, out.2)

/-- render_scene, source lines 175-282, restricted to the decisions the
core makes: the camera double loop with conditional object placement and
one render per pose.  baseCount is the number of objects in
bpy.data.objects after loading the base scene.  The source never calls
compute_all_relationships, so no relInfer event is ever emitted. -/
def render_scene (pr : Properties) (combos : Option (List (String × List String)))
    (args : Args) (ext : ExtEnv) (fuel num_objects baseCount : ℕ) (g : Rng) :
    List Ev × Except Err (Option (List PlacedObj) × ℕ) :=
  render_loop pr combos args ext fuel num_objects (render_iters args.num_cams)
    none baseCount 0 g

instance exceptDecEq {ε α : Type} [DecidableEq ε] [DecidableEq α] :
    DecidableEq (Except ε α) := fun x y =>
  match x, y with
  | .error e, .error f =>
    decidable_of_iff (e = f) ⟨fun h => by rw [h], fun h => by cases h; rfl⟩
  | .error _, .ok _ => isFalse (fun h => by cases h)
  | .ok _, .error _ => isFalse (fun h => by cases h)
  | .ok a, .ok b =>
    decidable_of_iff (a = b) ⟨fun h => by rw [h], fun h => by cases h; rfl⟩

/-- Event classifiers, used to count scene-graph calls in traces. -/
def Ev.isAddObj : Ev → Bool
  | .addObj _ => true
  | _ => false

def Ev.isAddMat : Ev → Bool
  | .addMat _ => true
  | _ => false

def Ev.isDelObj : Ev → Bool
  | .delObj _ => true
  | _ => false

def Ev.isRender : Ev → Bool
  | .render _ => true
  | _ => false

def Ev.isInvoke : Ev → Bool
  | .invokePlace => true
  | _ => false

def Ev.isRel : Ev → Bool
  | .relInfer => true
  | _ => false

/-- The separation property of the specification between two recorded
placements: planar distance minus the sum of the recorded collision
radii is at least the configured minimum distance. -/
def pairSep (minDist : ℚ) (p q : Pos) : Prop :=
  (minDist : ℝ) ≤ planarDist p.1 p.2.1 q.1 q.2.1 - p.2.2.toReal - q.2.2.toReal

/-- The placement data recorded in a scene-graph handle. -/
def bobjPos (b : BObj) : Pos := (b.x, b.y, b.r)

/-- Conformance of one sampled object to the shape to allowed-colors
restriction table. -/
def comboOk (cs : List (String × List String)) (o : PlacedObj) : Prop :=
  ∃ entry ∈ cs, o.shape = entry.1 ∧ o.color ∈ entry.2

/-- Conformance of a handle to the cube radius adjustment of source
lines 354-356. -/
def radiusOk (b : BObj) : Prop :=
  b.r = if b.shape = "Cube" then (Q2.ofRat b.drawnSize).divSqrt2 else Q2.ofRat b.drawnSize

/-- Concrete test environment: handle id i is reported at location
(i, 0, 0), all pixel projections are (0, 0). -/
def extFix : ExtEnv := ⟨fun i => ((i : ℚ), 0, 0), fun _ => (0, 0)⟩

/-- A one-shape catalog with a sphere (no cube adjustment). -/
def propsSphere : Properties :=
  ⟨[("red", (255, 0, 0))], [("rubber", "Rubber")], [("sphere", "Sphere")], [("s", 0)]⟩

/-- A one-shape catalog with a cube (blender name Cube). -/
def propsCube : Properties :=
  ⟨[("red", (255, 0, 0))], [("rubber", "Rubber")], [("cube", "Cube")], [("large", 7/10)]⟩

/-- min_dist 1 with max_retries 1: a repeated draw forces a whole-batch
restart. -/
def argsRestart : Args := ⟨1, 2/5, 1, 8⟩

/-- Loose settings under which single draws succeed immediately. -/
def argsSimple : Args := ⟨1/4, 2/5, 10, 8⟩

/-- Oracle driving the restart scenario: draws land on (0, 0) except the
seventh unit draw, which moves the restarted first slot to y = 2. -/
def rngRestart : Rng := ⟨fun k => if k = 6 then 5/6 else 1/2, fun _ => 0, 0, 0⟩

/-- Oracle with all unit draws 1/2 (candidate (0, 0)) and all choices
taking the first catalog entry. -/
def rngHalf : Rng := ⟨fun _ => 1/2, fun _ => 0, 0, 0⟩

/-- A one-line restriction table. -/
def combosFix : List (String × List String) := [("sphere", ["red"])]

/-- margin 100 with min_dist 1/2: the margin is never consulted by the
code. -/
def args5 : Args := ⟨1/2, 100, 10, 8⟩

/-- Oracle placing slot 0 at (0, 0) and slot 1 at (1, 0). -/
def rng5 : Rng := ⟨fun k => if k = 3 then 2/3 else 1/2, fun _ => 0, 0, 0⟩

/-- Restriction table whose second entry names a shape absent from the
catalog. -/
def combos9 : List (String × List String) := [("sphere", ["red"]), ("ghost", ["red"])]

/-- Oracle drawing the resolvable entry at slot 0 and the unresolvable
one at slot 1. -/
def rng9 : Rng := ⟨fun k => if k = 3 then 2/3 else 1/2, fun k => if k = 5 then 1 else 0, 0, 0⟩

/-- Restriction table whose single entry is unresolvable. -/
def combosGhost : List (String × List String) := [("ghost", ["red"])]

/-- Two-object scene with a horizontal direction and a vertical one. -/
def scene_c2 : SceneStruct :=
  ⟨"new", 0,
    [⟨"cube", "large", "rubber", (0, 0, 0), 0, (0, 0), "red"⟩,
      ⟨"sphere", "large", "rubber", (1, 0, 0), 0, (0, 0), "blue"⟩],
    [("left", (1, 0, 0)), ("above", (0, 0, 1))]⟩

theorem pyChoice_mem {α : Type} {l : List α} {n : ℕ} {a : α}
    (h : pyChoice l n = some a) : a ∈ l :=
  List.get?_mem h

theorem Rng.choice_eq_some_mem {α : Type} {g : Rng} {l : List α} {a : α} {g1 : Rng}
    (h : g.choice l = (some a, g1)) : a ∈ l := by
  unfold Rng.choice at h
  have := congrArg Prod.fst h
  exact pyChoice_mem this

theorem planarDist_comm (x y xx yy : ℚ) : planarDist x y xx yy = planarDist xx yy x y := by
  unfold planarDist
  congr 1
  ring

/-- The cube adjustment never grows a nonnegative radius. -/
theorem adjusted_radius_le {r : ℚ} (hr : 0 ≤ r) (shape : String) :
    (if shape = "Cube" then (Q2.ofRat r).divSqrt2 else Q2.ofRat r).toReal ≤ (r : ℝ) := by
  have hs : Real.sqrt 2 * Real.sqrt 2 = 2 := Real.mul_self_sqrt (by norm_num)
  have hs1 : (1 : ℝ) ≤ Real.sqrt 2 := by nlinarith [Real.sqrt_nonneg (2 : ℝ)]
  have hrR : (0 : ℝ) ≤ (r : ℝ) := by exact_mod_cast hr
  split_ifs with h
  · rw [Q2.toReal_divSqrt2, Q2.toReal_ofRat]
    rw [div_le_iff₀ (by linarith)]
    nlinarith
  · rw [Q2.toReal_ofRat]

/-- The adjusted radius is nonnegative for a nonnegative drawn size. -/
theorem adjusted_radius_nonneg {r : ℚ} (hr : 0 ≤ r) (shape : String) :
    0 ≤ (if shape = "Cube" then (Q2.ofRat r).divSqrt2 else Q2.ofRat r).toReal := by
  have hs0 : (0 : ℝ) < Real.sqrt 2 := Real.sqrt_pos.mpr (by norm_num)
  have hrR : (0 : ℝ) ≤ (r : ℝ) := by exact_mod_cast hr
  split_ifs with h
  · rw [Q2.toReal_divSqrt2, Q2.toReal_ofRat]
    positivity
  · rw [Q2.toReal_ofRat]
    exact hrR

/-- A candidate accepted by the retry loop passed the dists_good test
against every previously accepted placement: a candidate violating the
minimum-distance constraint is rejected and resampled. -/
theorem try_place_some_dists_good {minDist : ℚ} {positions : List Pos} {r : ℚ} :
    ∀ {k : ℕ} {g g2 : Rng} {x y : ℚ},
      try_place minDist positions r k g = (some (x, y), g2) →
      dists_good minDist positions x y (Q2.ofRat r) := by
  intro k
  induction k with
  | zero =>
    intro g g2 x y h
    simp [try_place] at h
  | succ k ih =>
    intro g g2 x y h
    unfold try_place at h
    dsimp only [Rng.nextU] at h
    split at h
    · rename_i hgood
      injection h with h1 h2
      injection h1 with h1
      injection h1 with hx hy
      subst hx
      subst hy
      exact hgood
    · exact ih h

/-- With the restriction table supplied, the chosen shape name is a key
of the table and the chosen color belongs to that key's list
(source lines 348-352). -/
theorem choose_shape_color_combos_spec {pr : Properties} {cs : List (String × List String)}
    {g g3 : Rng} {sp : String × String} {cp : String × Rgba}
    (h : choose_shape_color pr (some cs) g = (.ok (sp, cp), g3)) :
    ∃ entry ∈ cs, sp.2 = entry.1 ∧ cp.1 ∈ entry.2 := by
  simp only [choose_shape_color] at h
  rcases hch : g.choice cs with ⟨o1, g1⟩
  rw [hch] at h
  cases o1 with
  | none => simp at h
  | some entry =>
    dsimp only at h
    rcases hcol : g1.choice entry.2 with ⟨o2, g2⟩
    rw [hcol] at h
    cases o2 with
    | none => simp at h
    | some color_name =>
      dsimp only at h
      rcases hhead : (List.filter (fun p => p.2 == entry.1) (object_mapping pr)).head?
        with _ | spair
      · rw [hhead] at h
        simp at h
      · rw [hhead] at h
        dsimp only at h
        rcases hlook : (color_name_to_rgba pr).lookup color_name with _ | rgba
        · rw [hlook] at h
          simp at h
        · rw [hlook] at h
          dsimp only at h
          injection h with h1 h2
          injection h1 with h1
          injection h1 with ha hb
          subst ha
          subst hb
          exact ⟨entry, Rng.choice_eq_some_mem hch, rfl, Rng.choice_eq_some_mem hcol⟩

/-- Full characterization of one round of the slot loop.  On success the
round places exactly its slot count, emitting one add_object and one
add_material per slot and no deletions; the positions list mirrors the
handles; radii obey the cube adjustment; with a restriction table every
recorded object conforms to it; and the pairwise separation invariant is
preserved.  On exhaustion the handles returned for deletion are the
initial ones plus exactly the adds of the trace.  On error the trace
still pairs adds with materials whenever the error is a name-resolution
failure. -/
theorem place_slots_spec (pr : Properties) (combos : Option (List (String × List String)))
    (args : Args) (ext : ExtEnv) :
    ∀ (n : ℕ) (objs : List PlacedObj) (bos : List BObj) (poss : List Pos) (nid : ℕ) (g : Rng)
      (tr : List Ev) (res : RoundRes) (nid2 : ℕ) (g2 : Rng),
      place_slots pr combos args ext n objs bos poss nid g = ⟨tr, res, nid2, g2⟩ →
      ((∀ objs2 bos2 poss2, res = .ok objs2 bos2 poss2 →
        objs2.length = objs.length + n ∧
        bos2.length = bos.length + n ∧
        poss2.length = poss.length + n ∧
        tr.countP Ev.isAddObj = n ∧
        tr.countP Ev.isAddMat = n ∧
        (poss = bos.map bobjPos → poss2 = bos2.map bobjPos) ∧
        ((∀ b ∈ bos, radiusOk b) → ∀ b ∈ bos2, radiusOk b) ∧
        (∀ cs, combos = some cs → (∀ o ∈ objs, comboOk cs o) → ∀ o ∈ objs2, comboOk cs o) ∧
        ((∀ s ∈ pr.sizes, 0 ≤ s.2) → List.Pairwise (pairSep args.min_dist) poss →
          List.Pairwise (pairSep args.min_dist) poss2)) ∧
      (∀ bos2, res = .exhausted bos2 →
        bos2.length = bos.length + tr.countP Ev.isAddObj ∧
        tr.countP Ev.isAddMat = tr.countP Ev.isAddObj) ∧
      (∀ e, res = .err e →
        (e = .shapeNotFound ∨ e = .colorNotFound →
          tr.countP Ev.isAddObj = tr.countP Ev.isAddMat)) ∧
      (∀ e ∈ tr, Ev.isAddObj e = true ∨ Ev.isAddMat e = true)) := by
  intro n
  induction n with
  | zero =>
    intro objs bos poss nid g tr res nid2 g2 h
    simp only [place_slots] at h
    injection h with htr hres hnid hg
    subst htr
    subst hres
    refine ⟨?_, ?_, ?_, ?_⟩
    · intro objs2 bos2 poss2 hok
      injection hok with h1 h2 h3
      subst h1
      subst h2
      subst h3
      simp [comboOk]
    · intro bos2 hex
      cases hex
    · intro e he
      cases he
    · intro e he
      cases he
  | succ n ih =>
    intro objs bos poss nid g tr res nid2 g2 h
    simp only [place_slots] at h
    rcases hsz : g.choice (size_mapping pr) with ⟨osz, g1⟩
    rw [hsz] at h
    cases osz with
    | none =>
      dsimp only at h
      injection h with htr hres hnid hg
      subst htr
      subst hres
      refine ⟨?_, ?_, ?_, ?_⟩
      · intro objs2 bos2 poss2 hok
        cases hok
      · intro bos2 hex
        cases hex
      · intro e he
        injection he with he
        subst he
        rintro (hc | hc) <;> cases hc
      · intro e he
        cases he
    | some sz =>
      dsimp only at h
      rcases htp : try_place args.min_dist poss sz.2 args.max_retries g1 with ⟨oxy, gtp⟩
      rw [htp] at h
      cases oxy with
      | none =>
        dsimp only at h
        injection h with htr hres hnid hg
        subst htr
        subst hres
        refine ⟨?_, ?_, ?_, ?_⟩
        · intro objs2 bos2 poss2 hok
          cases hok
        · intro bos2 hex
          injection hex with hex
          subst hex
          simp
        · intro e he
          cases he
        · intro e he
          cases he
      | some xy =>
        obtain ⟨x, y⟩ := xy
        dsimp only at h
        rcases hcsc : choose_shape_color pr combos gtp with ⟨res3, g3⟩
        rw [hcsc] at h
        cases res3 with
        | error e3 =>
          dsimp only at h
          injection h with htr hres hnid hg
          subst htr
          subst hres
          refine ⟨?_, ?_, ?_, ?_⟩
          · intro objs2 bos2 poss2 hok
            cases hok
          · intro bos2 hex
            cases hex
          · intro e he
            injection he with he
            subst he
            intro hc
            simp
          · intro e he
            cases he
        | ok pq =>
          obtain ⟨sp, cp⟩ := pq
          dsimp only [Rng.nextU] at h
          rcases hmat : Rng.choice ⟨g3.us, g3.ns, g3.ui + 1, g3.ni⟩ (material_mapping pr)
            with ⟨omat, g5⟩
          rw [hmat] at h
          cases omat with
          | none =>
            dsimp only at h
            injection h with htr hres hnid hg
            subst htr
            subst hres
            refine ⟨?_, ?_, ?_, ?_⟩
            · intro objs2 bos2 poss2 hok
              cases hok
            · intro bos2 hex
              cases hex
            · intro e he
              injection he with he
              subst he
              rintro (hc | hc) <;> cases hc
            · intro e he
              rcases List.mem_singleton.mp he with rfl
              left
              rfl
          | some mp =>
            dsimp only at h
            rcases hrec : place_slots pr combos args ext n
              (objs ++ [⟨sp.2, sz.1, mp.2, ext.loc nid, 360 * g3.us g3.ui,
                ext.cam (ext.loc nid), cp.1⟩])
              (bos ++ [⟨nid, sp.1,
                if sp.1 = "Cube" then (Q2.ofRat sz.2).divSqrt2 else Q2.ofRat sz.2,
                x, y, 360 * g3.us g3.ui, sz.2⟩])
              (poss ++ [(x, y,
                if sp.1 = "Cube" then (Q2.ofRat sz.2).divSqrt2 else Q2.ofRat sz.2)])
              (nid + 1) g5 with ⟨tr5, res5, nid5, g5b⟩
            rw [hrec] at h
            dsimp only at h
            injection h with htr hres hnid hg
            subst htr
            subst hres
            obtain ⟨ihok, ihex, iherr, ihmem⟩ := ih _ _ _ _ _ _ _ _ _ hrec
            refine ⟨?_, ?_, ?_, ?_⟩
            · intro objs2 bos2 poss2 hok
              obtain ⟨l1, l2, l3, c1, c2, halign, hrad, hcombo, hsep⟩ := ihok objs2 bos2 poss2 hok
              refine ⟨by simp at l1 ⊢; omega, by simp at l2 ⊢; omega, by simp at l3 ⊢; omega,
                ?_, ?_, ?_, ?_, ?_, ?_⟩
              · simp [List.countP_cons, Ev.isAddObj, Ev.isAddMat, c1]
              · simp [List.countP_cons, Ev.isAddObj, Ev.isAddMat, c2]
              · intro hal
                apply halign
                rw [hal, List.map_append]
                rfl
              · intro hb
                apply hrad
                intro b hbm
                rcases List.mem_append.mp hbm with hbm | hbm
                · exact hb b hbm
                · rcases List.mem_singleton.mp hbm with rfl
                  unfold radiusOk
                  rfl
              · intro cs hcs ho
                apply hcombo cs hcs
                intro o hom
                rcases List.mem_append.mp hom with hom | hom
                · exact ho o hom
                · rcases List.mem_singleton.mp hom with rfl
                  subst hcs
                  obtain ⟨entry, hemem, hsp, hcp⟩ := choose_shape_color_combos_spec hcsc
                  exact ⟨entry, hemem, hsp, hcp⟩
              · intro hsizes hpair
                apply hsep hsizes
                rw [List.pairwise_append]
                refine ⟨hpair, by simp, ?_⟩
                intro p hp q hq
                rcases List.mem_singleton.mp hq with rfl
                have hdg := try_place_some_dists_good htp
                have hnc := hdg p hp
                rw [tooClose] at hnc
                push_neg at hnc
                have hszmem : sz ∈ pr.sizes := Rng.choice_eq_some_mem hsz
                have hrle := adjusted_radius_le (hsizes sz hszmem) sp.1
                unfold pairSep
                dsimp only
                rw [planarDist_comm]
                rw [Q2.toReal_ofRat] at hnc
                linarith
            · intro bos2 hex
              obtain ⟨e1, e2⟩ := ihex bos2 hex
              constructor
              · simp only [List.countP_cons, Ev.isAddObj, Ev.isAddMat] at e1 ⊢
                simp at e1 ⊢
                omega
              · simp only [List.countP_cons, Ev.isAddObj, Ev.isAddMat] at e2 ⊢
                simp at e2 ⊢
                omega
            · intro e he hnm
              have := iherr e he hnm
              simp only [List.countP_cons, Ev.isAddObj, Ev.isAddMat] at this ⊢
              simp at this ⊢
              omega
            · intro e he
              rcases he with _ | ⟨_, he⟩
              · left
                rfl
              · rcases he with _ | ⟨_, he⟩
                · right
                  rfl
                · exact ihmem e he

theorem Ev.isDelObj_of_isAddObj {e : Ev} (h : Ev.isAddObj e = true) :
    Ev.isDelObj e = false := by
  cases e <;> simp_all [Ev.isAddObj, Ev.isDelObj]

theorem Ev.isDelObj_of_isAddMat {e : Ev} (h : Ev.isAddMat e = true) :
    Ev.isDelObj e = false := by
  cases e <;> simp_all [Ev.isAddMat, Ev.isDelObj]

/-- Full characterization of add_random_objects.  On success it returns
exactly num_objects records in the three aligned lists; the trace
contains exactly num_objects more add_object calls than delete_object
calls (every handle of a failed round was deleted by the whole-batch
restart); radii obey the cube adjustment; objects conform to the
restriction table when one is supplied; and the recorded placements are
pairwise separated (for a nonnegative size catalog).  On a
name-resolution error the failing slot has not mutated the scene: adds
and material attachments pair up exactly.  Every event is an add, a
material attachment or a deletion. -/
theorem add_random_objects_spec (pr : Properties)
    (combos : Option (List (String × List String))) (args : Args) (ext : ExtEnv)
    (num : ℕ) :
    ∀ (fuel nid : ℕ) (g : Rng) (tr : List Ev)
      (res : Except Err (List PlacedObj × List BObj × List Pos)) (nid2 : ℕ) (g2 : Rng),
      add_random_objects pr combos args ext num fuel nid g = ⟨tr, res, nid2, g2⟩ →
      ((∀ objs bos poss, res = .ok (objs, bos, poss) →
        objs.length = num ∧ bos.length = num ∧ poss.length = num ∧
        tr.countP Ev.isAddObj = tr.countP Ev.isDelObj + num ∧
        poss = bos.map bobjPos ∧
        (∀ b ∈ bos, radiusOk b) ∧
        (∀ cs, combos = some cs → ∀ o ∈ objs, comboOk cs o) ∧
        ((∀ s ∈ pr.sizes, 0 ≤ s.2) → List.Pairwise (pairSep args.min_dist) poss)) ∧
      (∀ e, res = .error e →
        (e = .shapeNotFound ∨ e = .colorNotFound →
          tr.countP Ev.isAddObj = tr.countP Ev.isAddMat)) ∧
      (∀ e ∈ tr, Ev.isAddObj e = true ∨ Ev.isAddMat e = true ∨ Ev.isDelObj e = true)) := by
  intro fuel
  induction fuel with
  | zero =>
    intro nid g tr res nid2 g2 h
    simp only [add_random_objects] at h
    injection h with htr hres hnid hg
    subst htr
    subst hres
    refine ⟨?_, ?_, ?_⟩
    · intro objs bos poss hok
      cases hok
    · intro e he
      injection he with he
      subst he
      rintro (hc | hc) <;> cases hc
    · intro e he
      cases he
  | succ fuel ih =>
    intro nid g tr res nid2 g2 h
    simp only [add_random_objects] at h
    rcases hps : place_slots pr combos args ext num [] [] [] nid g with ⟨tr1, res1, nid1, g1⟩
    rw [hps] at h
    obtain ⟨psok, psex, pserr, psmem⟩ :=
      place_slots_spec pr combos args ext num [] [] [] nid g tr1 res1 nid1 g1 hps
    cases res1 with
    | ok objs1 bos1 poss1 =>
      dsimp only at h
      injection h with htr hres hnid hg
      subst htr
      subst hres
      obtain ⟨l1, l2, l3, c1, c2, halign, hrad, hcombo, hsep⟩ := psok objs1 bos1 poss1 rfl
      have hdel0 : tr1.countP Ev.isDelObj = 0 := by
        rw [List.countP_eq_zero]
        intro e he
        rcases psmem e he with hm | hm
        · simp [Ev.isDelObj_of_isAddObj hm]
        · simp [Ev.isDelObj_of_isAddMat hm]
      refine ⟨?_, ?_, ?_⟩
      · intro objs bos poss hok
        injection hok with hok
        injection hok with ho1 hok
        injection hok with ho2 ho3
        subst ho1
        subst ho2
        subst ho3
        refine ⟨by simpa using l1, by simpa using l2, by simpa using l3, by omega,
          ?_, ?_, ?_, ?_⟩
        · exact halign (by simp)
        · exact hrad (by simp)
        · intro cs hcs
          exact hcombo cs hcs (by simp)
        · intro hsizes
          exact hsep hsizes List.Pairwise.nil
      · intro e he
        cases he
      · intro e he
        rcases psmem e he with hm | hm
        · exact Or.inl hm
        · exact Or.inr (Or.inl hm)
    | err e1 =>
      dsimp only at h
      injection h with htr hres hnid hg
      subst htr
      subst hres
      refine ⟨?_, ?_, ?_⟩
      · intro objs bos poss hok
        cases hok
      · intro e he
        injection he with he
        subst he
        exact pserr e1 rfl
      · intro e he
        rcases psmem e he with hm | hm
        · exact Or.inl hm
        · exact Or.inr (Or.inl hm)
    | exhausted bos1 =>
      dsimp only at h
      rcases hrec : add_random_objects pr combos args ext num fuel nid1 g1
        with ⟨tr2, res2, nid3, g3⟩
      rw [hrec] at h
      dsimp only at h
      injection h with htr hres hnid hg
      subst htr
      subst hres
      obtain ⟨ihok, iherr, ihmem⟩ := ih nid1 g1 tr2 res2 nid3 g3 hrec
      obtain ⟨hexlen, hexmat⟩ := psex bos1 rfl
      simp only [List.length_nil, Nat.zero_add] at hexlen
      have hdelmap_add :
          (bos1.map (fun b => Ev.delObj b.id)).countP Ev.isAddObj = 0 := by
        rw [List.countP_eq_zero]
        intro e he
        rcases List.mem_map.mp he with ⟨b, _, rfl⟩
        simp [Ev.isAddObj]
      have hdelmap_mat :
          (bos1.map (fun b => Ev.delObj b.id)).countP Ev.isAddMat = 0 := by
        rw [List.countP_eq_zero]
        intro e he
        rcases List.mem_map.mp he with ⟨b, _, rfl⟩
        simp [Ev.isAddMat]
      have hdelmap_del :
          (bos1.map (fun b => Ev.delObj b.id)).countP Ev.isDelObj = bos1.length := by
        have : (bos1.map (fun b => Ev.delObj b.id)).countP Ev.isDelObj =
            (bos1.map (fun b => Ev.delObj b.id)).length := by
          rw [List.countP_eq_length]
          intro e he
          rcases List.mem_map.mp he with ⟨b, _, rfl⟩
          simp [Ev.isDelObj]
        simpa using this
      have htr1_del : tr1.countP Ev.isDelObj = 0 := by
        rw [List.countP_eq_zero]
        intro e he
        rcases psmem e he with hm | hm
        · simp [Ev.isDelObj_of_isAddObj hm]
        · simp [Ev.isDelObj_of_isAddMat hm]
      refine ⟨?_, ?_, ?_⟩
      · intro objs bos poss hok
        obtain ⟨l1, l2, l3, c1, o1, o2, o3, o4⟩ := ihok objs bos poss hok
        refine ⟨l1, l2, l3, ?_, o1, o2, o3, o4⟩
        simp only [List.countP_append, hdelmap_add, hdelmap_mat, hdelmap_del, htr1_del]
        omega
      · intro e he hnm
        have h2 := iherr e he hnm
        simp only [List.countP_append, hdelmap_add, hdelmap_mat]
        omega
      · intro e he
        rcases List.mem_append.mp he with he | he
        · rcases List.mem_append.mp he with he | he
          · rcases psmem e he with hm | hm
            · exact Or.inl hm
            · exact Or.inr (Or.inl hm)
          · rcases List.mem_map.mp he with ⟨b, _, rfl⟩
            right
            right
            rfl
        · exact ihmem e he

theorem pairwise_pairSep_get {md : ℚ} {poss : List Pos}
    (hp : List.Pairwise (pairSep md) poss) :
    ∀ (k l : ℕ) (hk : k < poss.length) (hl : l < poss.length), k ≠ l →
      (md : ℝ) ≤
        planarDist (poss.get ⟨k, hk⟩).1 (poss.get ⟨k, hk⟩).2.1
            (poss.get ⟨l, hl⟩).1 (poss.get ⟨l, hl⟩).2.1 -
          (poss.get ⟨k, hk⟩).2.2.toReal - (poss.get ⟨l, hl⟩).2.2.toReal := by
  intro k l hk hl hne
  have hiff := List.pairwise_iff_get.mp hp
  rcases Nat.lt_or_ge k l with hkl | hge
  · exact hiff ⟨k, hk⟩ ⟨l, hl⟩ hkl
  · have hlk : l < k := Nat.lt_of_le_of_ne hge (Ne.symm hne)
    have := hiff ⟨l, hl⟩ ⟨k, hk⟩ hlk
    unfold pairSep at this
    rw [planarDist_comm] at this
    linarith

/-- Claim C1: every pair of distinct placements recorded by a successful
add_random_objects run satisfies planar distance minus the sum of the
recorded collision radii at least args.min_dist (for a nonnegative size
catalog, as in properties.json); moreover every candidate accepted by
the retry loop passed the rejection test against all previously accepted
placements, i.e. violating candidates are rejected and resampled. -/
theorem c1_min_dist_invariant
    (pr : Properties) (combos : Option (List (String × List String))) (args : Args)
    (ext : ExtEnv) (num fuel nid : ℕ) (g : Rng)
    (objs : List PlacedObj) (bos : List BObj) (poss : List Pos)
    (hsizes : ∀ s ∈ pr.sizes, 0 ≤ s.2)
    (hres : (add_random_objects pr combos args ext num fuel nid g).res =
      .ok (objs, bos, poss)) :
    (∀ (k l : ℕ) (hk : k < poss.length) (hl : l < poss.length), k ≠ l →
      (args.min_dist : ℝ) ≤
        planarDist (poss.get ⟨k, hk⟩).1 (poss.get ⟨k, hk⟩).2.1
            (poss.get ⟨l, hl⟩).1 (poss.get ⟨l, hl⟩).2.1 -
          (poss.get ⟨k, hk⟩).2.2.toReal - (poss.get ⟨l, hl⟩).2.2.toReal) ∧
    (∀ (minDist : ℚ) (positions : List Pos) (r : ℚ) (k : ℕ) (g1 g2 : Rng) (x y : ℚ),
      try_place minDist positions r k g1 = (some (x, y), g2) →
      ∀ p ∈ positions, ¬ tooClose minDist x y (Q2.ofRat r) p.1 p.2.1 p.2.2) := by
  constructor
  · rcases heq : add_random_objects pr combos args ext num fuel nid g
      with ⟨tr, res, nid2, g2⟩
    rw [heq] at hres
    dsimp only at hres
    obtain ⟨hok, _, _⟩ := add_random_objects_spec pr combos args ext num fuel nid g
      tr res nid2 g2 heq
    obtain ⟨_, _, _, _, _, _, _, hsep⟩ := hok objs bos poss hres
    exact pairwise_pairSep_get (hsep hsizes)
  · intro minDist positions r k g1 g2 x y htp
    exact try_place_some_dists_good htp

/-- Claim C3: when the per-slot retry counter exceeds args.max_retries,
add_random_objects deletes every handle placed so far and restarts the
whole batch, so a successful return always carries exactly num_objects
records and the trace shows exactly num_objects more add_object calls
than delete_object calls: every object of a failed round was deleted,
and no partial list is ever returned. -/
theorem c3_restart_and_full_return
    (pr : Properties) (combos : Option (List (String × List String))) (args : Args)
    (ext : ExtEnv) (num fuel nid : ℕ) (g : Rng)
    (tr : List Ev) (res : Except Err (List PlacedObj × List BObj × List Pos))
    (nid2 : ℕ) (g2 : Rng)
    (heq : add_random_objects pr combos args ext num fuel nid g = ⟨tr, res, nid2, g2⟩)
    (objs : List PlacedObj) (bos : List BObj) (poss : List Pos)
    (hres : res = .ok (objs, bos, poss)) :
    objs.length = num ∧ bos.length = num ∧ poss.length = num ∧
    tr.countP Ev.isAddObj = tr.countP Ev.isDelObj + num := by
  obtain ⟨hok, _, _⟩ := add_random_objects_spec pr combos args ext num fuel nid g
    tr res nid2 g2 heq
  obtain ⟨l1, l2, l3, c1, _⟩ := hok objs bos poss hres
  exact ⟨l1, l2, l3, c1⟩

/-- Claim C7: for every handle created by a successful run, the recorded
collision radius (which is also the radius stored in the positions list)
equals the drawn size scale divided by sqrt 2 exactly when the drawn
blender shape name is the cube-like shape Cube, and equals the drawn
scale unchanged otherwise. -/
theorem c7_cube_radius_adjustment
    (pr : Properties) (combos : Option (List (String × List String))) (args : Args)
    (ext : ExtEnv) (num fuel nid : ℕ) (g : Rng)
    (objs : List PlacedObj) (bos : List BObj) (poss : List Pos)
    (hres : (add_random_objects pr combos args ext num fuel nid g).res =
      .ok (objs, bos, poss)) :
    poss = bos.map bobjPos ∧
    ∀ b ∈ bos, b.r.toReal =
      if b.shape = "Cube" then (b.drawnSize : ℝ) / Real.sqrt 2 else (b.drawnSize : ℝ) := by
  rcases heq : add_random_objects pr combos args ext num fuel nid g
    with ⟨tr, res, nid2, g2⟩
  rw [heq] at hres
  dsimp only at hres
  obtain ⟨hok, _, _⟩ := add_random_objects_spec pr combos args ext num fuel nid g
    tr res nid2 g2 heq
  obtain ⟨_, _, _, _, halign, hrad, _, _⟩ := hok objs bos poss hres
  refine ⟨halign, ?_⟩
  intro b hb
  have := hrad b hb
  unfold radiusOk at this
  rw [this]
  split_ifs with h
  · rw [Q2.toReal_divSqrt2, Q2.toReal_ofRat]
  · rw [Q2.toReal_ofRat]

/-- Claim C8: whenever a shape to allowed-colors restriction table is
supplied, every object recorded by a successful run has a shape that is
a key of the table and a color belonging to that key's permitted list. -/
theorem c8_restriction_table
    (pr : Properties) (combos : Option (List (String × List String))) (args : Args)
    (ext : ExtEnv) (num fuel nid : ℕ) (g : Rng)
    (cs : List (String × List String)) (hcombos : combos = some cs)
    (objs : List PlacedObj) (bos : List BObj) (poss : List Pos)
    (hres : (add_random_objects pr combos args ext num fuel nid g).res =
      .ok (objs, bos, poss)) :
    ∀ o ∈ objs, ∃ entry ∈ cs, o.shape = entry.1 ∧ o.color ∈ entry.2 := by
  rcases heq : add_random_objects pr combos args ext num fuel nid g
    with ⟨tr, res, nid2, g2⟩
  rw [heq] at hres
  dsimp only at hres
  obtain ⟨hok, _, _⟩ := add_random_objects_spec pr combos args ext num fuel nid g
    tr res nid2 g2 heq
  obtain ⟨_, _, _, _, _, _, hcombo, _⟩ := hok objs bos poss hres
  exact hcombo cs hcombos

theorem c1_witness :
    (∀ s ∈ propsSphere.sizes, 0 ≤ s.2) ∧
    ∃ objs bos poss,
      (add_random_objects propsSphere none argsRestart extFix 2 3 0 rngRestart).res =
        .ok (objs, bos, poss) ∧
      (∀ (k l : ℕ) (hk : k < poss.length) (hl : l < poss.length), k ≠ l →
        (argsRestart.min_dist : ℝ) ≤
          planarDist (poss.get ⟨k, hk⟩).1 (poss.get ⟨k, hk⟩).2.1
              (poss.get ⟨l, hl⟩).1 (poss.get ⟨l, hl⟩).2.1 -
            (poss.get ⟨k, hk⟩).2.2.toReal - (poss.get ⟨l, hl⟩).2.2.toReal) := by
  have hsz : ∀ s ∈ propsSphere.sizes, 0 ≤ s.2 := by
    intro s hs
    rcases List.mem_singleton.mp hs with rfl
    norm_num
  exact ⟨hsz, _, _, _, by with_unfolding_all rfl,
    (c1_min_dist_invariant propsSphere none argsRestart extFix 2 3 0 rngRestart _ _ _ hsz
      (by with_unfolding_all rfl)).1⟩

theorem c3_witness :
    ∃ tr nid2 g2 objs bos poss,
      add_random_objects propsSphere none argsRestart extFix 2 3 0 rngRestart =
        ⟨tr, .ok (objs, bos, poss), nid2, g2⟩ ∧
      (objs.length = 2 ∧ bos.length = 2 ∧ poss.length = 2 ∧
        tr.countP Ev.isAddObj = tr.countP Ev.isDelObj + 2) :=
  ⟨_, _, _, _, _, _, by with_unfolding_all rfl,
    c3_restart_and_full_return propsSphere none argsRestart extFix 2 3 0 rngRestart
      _ _ _ _ (by with_unfolding_all rfl) _ _ _ rfl⟩

theorem c7_witness :
    ∃ objs bos poss,
      (add_random_objects propsCube none argsSimple extFix 1 1 0 rngHalf).res =
        .ok (objs, bos, poss) ∧
      (poss = bos.map bobjPos ∧
        ∀ b ∈ bos, b.r.toReal =
          if b.shape = "Cube" then (b.drawnSize : ℝ) / Real.sqrt 2
          else (b.drawnSize : ℝ)) :=
  ⟨_, _, _, by with_unfolding_all rfl,
    c7_cube_radius_adjustment propsCube none argsSimple extFix 1 1 0 rngHalf _ _ _
      (by with_unfolding_all rfl)⟩

theorem c8_witness :
    ∃ objs bos poss,
      (add_random_objects propsSphere (some combosFix) argsSimple extFix 1 1 0 rngHalf).res =
        .ok (objs, bos, poss) ∧
      ∀ o ∈ objs, ∃ entry ∈ combosFix, o.shape = entry.1 ∧ o.color ∈ entry.2 :=
  ⟨_, _, _, by with_unfolding_all rfl,
    c8_restriction_table propsSphere (some combosFix) argsSimple extFix 1 1 0 rngHalf
      combosFix rfl _ _ _ (by with_unfolding_all rfl)⟩

/-- Claim C5: the code accepts placements that violate the documented
margin constraint.  With args.margin = 100 a run returns two placements
at (0, 0) and (1, 0): their separation along every direction is at most
their planar distance 1, far below the margin, yet both are accepted,
because add_random_objects performs no margin check at all (the comments
at source lines 315-317 and 330-331 and the --margin help text at lines
73-76 promise one). -/
theorem c5_margin_not_enforced :
    ∃ objs bos,
      (add_random_objects propsSphere none args5 extFix 2 1 0 rng5).res =
        .ok (objs, bos, [(0, 0, Q2.ofRat 0), (1, 0, Q2.ofRat 0)]) ∧
      args5.margin = 100 ∧
      |(0 : ℚ) - 1| < args5.margin ∧
      |(0 : ℚ) - 0| < args5.margin ∧
      planarDist 0 0 1 0 < (args5.margin : ℝ) := by
  refine ⟨_, _, by with_unfolding_all rfl, rfl, by norm_num [args5], by norm_num [args5], ?_⟩
  have h1 : planarDist 0 0 1 0 = 1 := by
    unfold planarDist
    norm_num
  rw [h1]
  norm_num [args5]

/-- Claim C9 counterexample: with the restriction table combos9 the
second slot draws the shape ghost, absent from the catalog; the run
fails with shapeNotFound, but only after the first slot has already
mutated the external scene: the trace contains an add_object call. -/
theorem c9_counterexample :
    (add_random_objects propsSphere (some combos9) args5 extFix 2 1 0 rng9).res =
      .error .shapeNotFound ∧
    Ev.addObj 0 ∈ (add_random_objects propsSphere (some combos9) args5 extFix 2 1 0 rng9).trace := by
  constructor
  · with_unfolding_all rfl
  · have h : (add_random_objects propsSphere (some combos9) args5 extFix 2 1 0 rng9).trace =
        [Ev.addObj 0, Ev.addMat "Rubber"] := by with_unfolding_all rfl
    rw [h]
    simp

/-- Claim C9 (amended): on an unresolvable shape or color name the
failure precedes the failing slot's own scene-graph mutations: the trace
pairs add_object calls with add_material calls exactly (all mutations
stem from previously completed slots and restart deletions); and when
already the first sampled slot of the first round draws an unresolvable
shape, add_random_objects fails before any scene-graph mutation: its
trace is empty. -/
theorem c9_fail_fast_amended :
    (∀ (pr : Properties) (combos : Option (List (String × List String))) (args : Args)
       (ext : ExtEnv) (num fuel nid : ℕ) (g : Rng) (tr : List Ev)
       (res : Except Err (List PlacedObj × List BObj × List Pos)) (nid2 : ℕ) (g2 : Rng),
      add_random_objects pr combos args ext num fuel nid g = ⟨tr, res, nid2, g2⟩ →
      ∀ e, res = .error e → (e = .shapeNotFound ∨ e = .colorNotFound) →
        tr.countP Ev.isAddObj = tr.countP Ev.isAddMat) ∧
    (∀ (pr : Properties) (cs : List (String × List String)) (args : Args) (ext : ExtEnv)
       (num fuel nid : ℕ) (g : Rng) (sz : String × ℚ) (entry : String × List String)
       (cname : String),
      1 ≤ num → 1 ≤ args.max_retries →
      pyChoice pr.sizes (g.ns g.ni) = some sz →
      pyChoice cs (g.ns (g.ni + 1)) = some entry →
      pyChoice entry.2 (g.ns (g.ni + 2)) = some cname →
      (∀ p ∈ pr.shapes, p.1 ≠ entry.1) →
      (add_random_objects pr (some cs) args ext num (fuel + 1) nid g).trace = [] ∧
      (add_random_objects pr (some cs) args ext num (fuel + 1) nid g).res =
        .error .shapeNotFound) := by
  constructor
  · intro pr combos args ext num fuel nid g tr res nid2 g2 heq e hres hnm
    obtain ⟨_, herr, _⟩ := add_random_objects_spec pr combos args ext num fuel nid g
      tr res nid2 g2 heq
    exact herr e hres hnm
  · intro pr cs args ext num fuel nid g sz entry cname hnum hmr hsz hcombo hcolor hmiss
    obtain ⟨n, rfl⟩ : ∃ n, num = n + 1 := ⟨num - 1, by omega⟩
    obtain ⟨m, hm⟩ : ∃ m, args.max_retries = m + 1 := ⟨args.max_retries - 1, by omega⟩
    have h1 : g.choice (size_mapping pr) = (some sz, ⟨g.us, g.ns, g.ui, g.ni + 1⟩) := by
      simp only [Rng.choice, Rng.nextN, size_mapping]
      rw [hsz]
    have hdg : dists_good args.min_dist [] (pyUniform (-3) 3 (g.us g.ui))
        (pyUniform (-3) 3 (g.us (g.ui + 1))) (Q2.ofRat sz.2) := by
      intro p hp
      simp at hp
    have h2 : try_place args.min_dist [] sz.2 args.max_retries
        ⟨g.us, g.ns, g.ui, g.ni + 1⟩ =
        (some (pyUniform (-3) 3 (g.us g.ui), pyUniform (-3) 3 (g.us (g.ui + 1))),
          ⟨g.us, g.ns, g.ui + 1 + 1, g.ni + 1⟩) := by
      rw [hm]
      simp only [try_place, Rng.nextU]
      rw [if_pos hdg]
    have hfilter : List.filter (fun p => p.2 == entry.1) (object_mapping pr) = [] := by
      rw [List.filter_eq_nil_iff]
      intro q hq
      rcases List.mem_map.mp hq with ⟨p, hpmem, rfl⟩
      simpa using hmiss p hpmem
    have h3 : choose_shape_color pr (some cs) ⟨g.us, g.ns, g.ui + 1 + 1, g.ni + 1⟩ =
        (.error .shapeNotFound, ⟨g.us, g.ns, g.ui + 1 + 1, g.ni + 1 + 1 + 1⟩) := by
      simp only [choose_shape_color, Rng.choice, Rng.nextN]
      rw [hcombo]
      dsimp only
      rw [hcolor]
      dsimp only
      rw [hfilter]
      rfl
    have hps : place_slots pr (some cs) args ext (n + 1) [] [] [] nid g =
        ⟨[], .err .shapeNotFound, nid, ⟨g.us, g.ns, g.ui + 1 + 1, g.ni + 1 + 1 + 1⟩⟩ := by
      simp only [place_slots]
      rw [h1]
      dsimp only
      rw [h2]
      dsimp only
      rw [h3]
    constructor
    · simp only [add_random_objects, hps]
    · simp only [add_random_objects, hps]

theorem c9_witness :
    (∃ tr nid2 g2,
      add_random_objects propsSphere (some combos9) args5 extFix 2 1 0 rng9 =
        ⟨tr, .error .shapeNotFound, nid2, g2⟩ ∧
      tr.countP Ev.isAddObj = tr.countP Ev.isAddMat) ∧
    ((add_random_objects propsSphere (some combosGhost) argsSimple extFix 1 (0 + 1) 0
        rngHalf).trace = [] ∧
      (add_random_objects propsSphere (some combosGhost) argsSimple extFix 1 (0 + 1) 0
        rngHalf).res = .error .shapeNotFound) := by
  constructor
  · exact ⟨_, _, _, by with_unfolding_all rfl,
      c9_fail_fast_amended.1 propsSphere (some combos9) args5 extFix 2 1 0 rng9 _ _ _ _
        (by with_unfolding_all rfl) .shapeNotFound rfl (Or.inl rfl)⟩
  · exact c9_fail_fast_amended.2 propsSphere combosGhost argsSimple extFix 1 0 0 rngHalf
      ("s", 0) ("ghost", ["red"]) "red" (by norm_num) (by norm_num [argsSimple]) rfl rfl rfl
      (by decide)

theorem dot3_sub3_self (c : ℚ × ℚ × ℚ) (v : ℚ × ℚ × ℚ) : dot3 (sub3 c c) v = 0 := by
  unfold dot3 sub3
  ring

theorem mem_related {objs : List PlacedObj} {o1 : PlacedObj} {vec : ℚ × ℚ × ℚ}
    {eps : ℚ} {j : ℕ} :
    j ∈ related objs o1 vec eps ↔
      ∃ o2, objs[j]? = some o2 ∧ ¬ o2 = o1 ∧
        eps < dot3 (sub3 o2.coords_3d o1.coords_3d) vec := by
  unfold related relatedPred
  rw [List.mem_filter, List.mem_range]
  constructor
  · rintro ⟨hj, hp⟩
    cases hg : objs[j]? with
    | none =>
      rw [hg] at hp
      simp at hp
    | some o2 =>
      rw [hg] at hp
      simp only [decide_eq_true_eq] at hp
      exact ⟨o2, rfl, hp.1, hp.2⟩
  · rintro ⟨o2, hg, hne, hdot⟩
    refine ⟨(List.getElem?_eq_some_iff.mp hg).1, ?_⟩
    rw [hg]
    simp only [decide_eq_true_eq]
    exact ⟨hne, hdot⟩

theorem related_sorted (objs : List PlacedObj) (o1 : PlacedObj) (vec : ℚ × ℚ × ℚ)
    (eps : ℚ) : (related objs o1 vec eps).Sorted (· < ·) :=
  List.Pairwise.sublist (List.filter_sublist _) (List.pairwise_lt_range _)

theorem relations_for_getElem (objs : List PlacedObj) (vec : ℚ × ℚ × ℚ) (eps : ℚ)
    (i : ℕ) :
    (relations_for objs vec eps)[i]? =
      (objs[i]?).map (fun o1 => related objs o1 vec eps) := by
  unfold relations_for
  rw [List.getElem?_map]

/-- Claim C2: for every direction entry of the scene other than above
and below, compute_all_relationships contains the corresponding table,
with one entry per object; j belongs to row i exactly when j indexes an
object, j differs from i and the dot product of the displacement from
object i to object j with the direction vector strictly exceeds eps (for
eps nonnegative); hence membership is anti-reflexive, and every row is a
sorted list of indices. -/
theorem c2_relationships (scene : SceneStruct) (eps : ℚ) (heps : 0 ≤ eps)
    (name : String) (vec : ℚ × ℚ × ℚ) (hmem : (name, vec) ∈ scene.directions)
    (hab : name ≠ "above") (hbe : name ≠ "below") :
    (name, relations_for scene.objects vec eps) ∈ compute_all_relationships scene eps ∧
    (relations_for scene.objects vec eps).length = scene.objects.length ∧
    ∀ (i : ℕ) (li : List ℕ), (relations_for scene.objects vec eps)[i]? = some li →
      (∀ j, j ∈ li ↔ ∃ oi oj, scene.objects[i]? = some oi ∧ scene.objects[j]? = some oj ∧
        j ≠ i ∧ eps < dot3 (sub3 oj.coords_3d oi.coords_3d) vec) ∧
      i ∉ li ∧
      li.Sorted (· < ·) := by
  refine ⟨?_, ?_, ?_⟩
  · unfold compute_all_relationships
    refine List.mem_map.mpr ⟨(name, vec), List.mem_filter.mpr ⟨hmem, ?_⟩, rfl⟩
    simp [hab, hbe]
  · unfold relations_for
    exact List.length_map _ _
  · intro i li hli
    rw [relations_for_getElem] at hli
    rcases Option.map_eq_some'.mp hli with ⟨oi, hoi, rfl⟩
    have hiff : ∀ j, j ∈ related scene.objects oi vec eps ↔
        ∃ oi2 oj, scene.objects[i]? = some oi2 ∧ scene.objects[j]? = some oj ∧
          j ≠ i ∧ eps < dot3 (sub3 oj.coords_3d oi2.coords_3d) vec := by
      intro j
      rw [mem_related]
      constructor
      · rintro ⟨o2, hg, hne, hdot⟩
        refine ⟨oi, o2, hoi, hg, ?_, hdot⟩
        intro hji
        subst hji
        rw [hoi] at hg
        injection hg with hg
        exact hne hg.symm
      · rintro ⟨oi2, oj, hoi2, hoj, hne, hdot⟩
        rw [hoi] at hoi2
        injection hoi2 with hoi2
        subst hoi2
        refine ⟨oj, hoj, ?_, hdot⟩
        intro heq
        subst heq
        rw [dot3_sub3_self] at hdot
        exact absurd hdot (not_lt.mpr heps)
    refine ⟨hiff, ?_, related_sorted _ _ _ _⟩
    intro hi
    rcases (hiff i).mp hi with ⟨oi2, oj, _, _, hne, _⟩
    exact hne rfl

theorem c2_witness :
    (0 : ℚ) ≤ 1/5 ∧
    ("left", ((1 : ℚ), (0 : ℚ), (0 : ℚ))) ∈ scene_c2.directions ∧
    ("left" : String) ≠ "above" ∧ ("left" : String) ≠ "below" ∧
    (("left", relations_for scene_c2.objects (1, 0, 0) (1/5)) ∈
        compute_all_relationships scene_c2 (1/5) ∧
      (relations_for scene_c2.objects (1, 0, 0) (1/5)).length = scene_c2.objects.length ∧
      ∀ (i : ℕ) (li : List ℕ),
        (relations_for scene_c2.objects (1, 0, 0) (1/5))[i]? = some li →
        (∀ j, j ∈ li ↔ ∃ oi oj, scene_c2.objects[i]? = some oi ∧
          scene_c2.objects[j]? = some oj ∧ j ≠ i ∧
          (1/5 : ℚ) < dot3 (sub3 oj.coords_3d oi.coords_3d) (1, 0, 0)) ∧
        i ∉ li ∧
        li.Sorted (· < ·)) :=
  ⟨by norm_num, List.mem_cons_self _ _, by decide, by decide,
    c2_relationships scene_c2 (1/5) (by norm_num) "left" (1, 0, 0)
      (List.mem_cons_self _ _) (by decide) (by decide)⟩

theorem camera_poses_length (N : ℕ) : (camera_poses N).length = 8 * (N / 8) := by
  unfold camera_poses tier_poses num_heights
  rw [List.length_flatten, List.map_map]
  have h : (List.range 8).map (List.length ∘ fun j => (List.range (N / 8)).map (camera_pos N j)) =
      List.replicate 8 (N / 8) := by
    apply List.eq_replicate_of_mem
    intro a ha
    rcases List.mem_map.mp ha with ⟨j, _, rfl⟩
    simp
  rw [h]
  exact List.sum_const_nat 8 (N / 8)

theorem camera_phi_pos (j : ℕ) : 0 < camera_phi j := by
  unfold camera_phi num_heights
  have hp := Real.pi_pos
  have hj : (0 : ℝ) < (j : ℝ) + 1 := by positivity
  positivity

theorem camera_phi_lt_pi {j : ℕ} (hj : j < 8) : camera_phi j < Real.pi := by
  unfold camera_phi num_heights
  have hp := Real.pi_pos
  have hj8 : (j : ℝ) + 1 ≤ 8 := by
    have : (j : ℝ) ≤ 7 := by exact_mod_cast Nat.le_of_lt_succ hj
    linarith
  push_cast
  nlinarith

theorem camera_phi_inj {j j' : ℕ} (h : camera_phi j = camera_phi j') : j = j' := by
  unfold camera_phi num_heights at h
  have hcoef : Real.pi * 3 / 10 / (8 : ℝ) ≠ 0 := by
    have := Real.pi_pos
    positivity
  have h2 : (j : ℝ) + 1 = (j' : ℝ) + 1 := mul_left_cancel₀ hcoef (by push_cast at h ⊢; linarith)
  have : (j : ℝ) = (j' : ℝ) := by linarith
  exact_mod_cast this

theorem camera_azimuth_spacing (N : ℕ) (hN : 1 ≤ N) (i : ℕ) :
    camera_azimuth N (i + 1) - camera_azimuth N i = 16 * Real.pi / N := by
  unfold camera_azimuth num_heights
  have hN0 : (N : ℝ) ≠ 0 := by
    have : (0 : ℝ) < N := by exact_mod_cast hN
    exact ne_of_gt this
  push_cast
  field_simp
  ring

theorem camera_azimuth_inj {N i i' : ℕ} (hi : i < N / 8) (hi' : i' < N / 8)
    (hc : Real.cos (camera_azimuth N i) = Real.cos (camera_azimuth N i'))
    (hs : Real.sin (camera_azimuth N i) = Real.sin (camera_azimuth N i')) : i = i' := by
  have h8 : 8 ≤ N := by
    by_contra hc8
    push_neg at hc8
    rw [Nat.div_eq_of_lt hc8] at hi
    omega
  have hNpos : (0 : ℝ) < (N : ℝ) := by
    have : 0 < N := by omega
    exact_mod_cast this
  have hpi := Real.pi_pos
  have hone : Real.cos (camera_azimuth N i - camera_azimuth N i') = 1 := by
    rw [Real.cos_sub, hc, hs]
    linear_combination Real.sin_sq_add_cos_sq (camera_azimuth N i')
  have hdiff : camera_azimuth N i - camera_azimuth N i' =
      (2 * (i : ℝ) - 2 * (i' : ℝ)) / N * 8 * Real.pi := by
    unfold camera_azimuth num_heights
    push_cast
    field_simp
    ring
  have hile : (i : ℝ) + 1 ≤ ((N / 8 : ℕ) : ℝ) := by exact_mod_cast Nat.succ_le_of_lt hi
  have hile' : (i' : ℝ) + 1 ≤ ((N / 8 : ℕ) : ℝ) := by exact_mod_cast Nat.succ_le_of_lt hi'
  have hfloor : ((N / 8 : ℕ) : ℝ) ≤ (N : ℝ) / 8 := Nat.cast_div_le
  have hinn : (0 : ℝ) ≤ (i : ℝ) := Nat.cast_nonneg i
  have hinn' : (0 : ℝ) ≤ (i' : ℝ) := Nat.cast_nonneg i'
  have hboundlt : (2 * (i : ℝ) - 2 * (i' : ℝ)) / N * 8 < 2 := by
    rw [div_mul_eq_mul_div, div_lt_iff₀ hNpos]
    nlinarith
  have hboundgt : -(2 : ℝ) < (2 * (i : ℝ) - 2 * (i' : ℝ)) / N * 8 := by
    rw [div_mul_eq_mul_div, lt_div_iff₀ hNpos]
    nlinarith
  have habs1 : -(2 * Real.pi) < camera_azimuth N i - camera_azimuth N i' := by
    rw [hdiff]
    nlinarith
  have habs2 : camera_azimuth N i - camera_azimuth N i' < 2 * Real.pi := by
    rw [hdiff]
    nlinarith
  have hab := (Real.cos_eq_one_iff_of_lt_of_lt habs1 habs2).mp hone
  rw [hdiff] at hab
  have hN0 : (N : ℝ) ≠ 0 := ne_of_gt hNpos
  have hpi0 : Real.pi ≠ 0 := ne_of_gt hpi
  have hstep : (2 * (i : ℝ) - 2 * (i' : ℝ)) / N * 8 = 0 := by
    rcases mul_eq_zero.mp hab with h | h
    · exact h
    · exact absurd h hpi0
  have hstep2 : (2 * (i : ℝ) - 2 * (i' : ℝ)) / N = 0 := by
    rcases mul_eq_zero.mp hstep with h | h
    · exact h
    · norm_num at h
  have hzero : 2 * (i : ℝ) - 2 * (i' : ℝ) = 0 := by
    rcases div_eq_zero_iff.mp hstep2 with h | h
    · exact h
    · exact absurd h hN0
  have : (i : ℝ) = (i' : ℝ) := by linarith
  exact_mod_cast this

theorem camera_poses_nodup (N : ℕ) : (camera_poses N).Nodup := by
  unfold camera_poses
  rw [List.nodup_flatten]
  constructor
  · intro s hs
    rcases List.mem_map.mp hs with ⟨j, hj, rfl⟩
    rw [List.mem_range] at hj
    unfold tier_poses
    apply List.Nodup.map_on ?_ (List.nodup_range _)
    intro i hi i' hi' heq
    rw [List.mem_range, num_heights] at hi hi'
    unfold camera_pos at heq
    rw [Prod.ext_iff] at heq
    obtain ⟨hx, heq2⟩ := heq
    rw [Prod.ext_iff] at heq2
    obtain ⟨hy, _⟩ := heq2
    have hsin : 0 < Real.sin (camera_phi j) :=
      Real.sin_pos_of_pos_of_lt_pi (camera_phi_pos j) (camera_phi_lt_pi hj)
    have hc10 : Real.cos (camera_azimuth N i) = Real.cos (camera_azimuth N i') :=
      mul_left_cancel₀ (by norm_num : (10 : ℝ) ≠ 0)
        (mul_right_cancel₀ (ne_of_gt hsin) hx)
    have hs10 : Real.sin (camera_azimuth N i) = Real.sin (camera_azimuth N i') :=
      mul_left_cancel₀ (by norm_num : (10 : ℝ) ≠ 0)
        (mul_right_cancel₀ (ne_of_gt hsin) hy)
    exact camera_azimuth_inj hi hi' hc10 hs10
  · rw [List.pairwise_map]
    apply List.Pairwise.imp_of_mem ?_ (List.pairwise_lt_range 8)
    intro j j' hj hj' hlt
    rw [List.mem_range] at hj hj'
    intro p hp hp'
    unfold tier_poses at hp hp'
    rcases List.mem_map.mp hp with ⟨i, _, rfl⟩
    rcases List.mem_map.mp hp' with ⟨i', _, hpi⟩
    have hz : Real.cos (camera_phi j') = Real.cos (camera_phi j) := by
      have := congrArg (fun q => q.2.2) hpi
      unfold camera_pos at this
      dsimp only at this
      exact mul_left_cancel₀ (by norm_num : (10 : ℝ) ≠ 0) this
  
    have hmem : camera_phi j' ∈ Set.Icc 0 Real.pi :=
      ⟨le_of_lt (camera_phi_pos j'), le_of_lt (camera_phi_lt_pi hj')⟩
    have hmem' : camera_phi j ∈ Set.Icc 0 Real.pi :=
      ⟨le_of_lt (camera_phi_pos j), le_of_lt (camera_phi_lt_pi hj)⟩
    have := camera_phi_inj (Real.injOn_cos hmem hmem' hz)
    omega

/-- Claim C4 (amended): for every num_cams at least 1 the camera loop
produces exactly num_heights * (num_cams / num_heights) poses, which
equals num_cams exactly when num_heights divides num_cams (and is 0, not
num_cams, e.g. for num_cams = 1); every tier holds exactly
num_cams / num_heights poses (an exactly even partition); azimuth values
are evenly spaced with constant step 2 * num_heights * pi / num_cams;
and all produced camera positions are pairwise distinct. -/
theorem c4_camera_poses_amended (N : ℕ) (hN : 1 ≤ N) :
    (camera_poses N).length = 8 * (N / 8) ∧
    (8 ∣ N → (camera_poses N).length = N) ∧
    (∀ j, (tier_poses N j).length = N / 8) ∧
    (∀ i, camera_azimuth N (i + 1) - camera_azimuth N i = 16 * Real.pi / N) ∧
    (camera_poses N).Nodup := by
  refine ⟨camera_poses_length N, ?_, ?_, camera_azimuth_spacing N hN,
    camera_poses_nodup N⟩
  · intro hdvd
    rw [camera_poses_length]
    exact Nat.mul_div_cancel' hdvd
  · intro j
    unfold tier_poses num_heights
    simp

/-- Claim C4 counterexample: with num_cams = 1 the camera loop produces
no poses at all (1 / 8 = 0 iterations per tier), not exactly one pose:
the loop produces num_cams poses only when 8 divides num_cams. -/
theorem c4_counterexample :
    (camera_poses 1).length = 0 ∧ (camera_poses 1).length ≠ 1 := by
  rw [camera_poses_length]
  norm_num

theorem c4_witness :
    1 ≤ 8 ∧
    ((camera_poses 8).length = 8 * (8 / 8) ∧
      (8 ∣ 8 → (camera_poses 8).length = 8) ∧
      (∀ j, (tier_poses 8 j).length = 8 / 8) ∧
      (∀ i, camera_azimuth 8 (i + 1) - camera_azimuth 8 i = 16 * Real.pi / 8) ∧
      (camera_poses 8).Nodup) :=
  ⟨by norm_num, c4_camera_poses_amended 8 (by norm_num)⟩

theorem Ev.not_isInvoke_of_place {e : Ev}
    (h : Ev.isAddObj e = true ∨ Ev.isAddMat e = true ∨ Ev.isDelObj e = true) :
    Ev.isInvoke e = false := by
  cases e <;> simp_all [Ev.isAddObj, Ev.isAddMat, Ev.isDelObj, Ev.isInvoke]

theorem Ev.not_isRel_of_place {e : Ev}
    (h : Ev.isAddObj e = true ∨ Ev.isAddMat e = true ∨ Ev.isDelObj e = true) :
    Ev.isRel e = false := by
  cases e <;> simp_all [Ev.isAddObj, Ev.isAddMat, Ev.isDelObj, Ev.isRel]

/-- Placement emits no invocation markers and no relationship-inference
events. -/
theorem add_random_objects_trace_counts (pr : Properties)
    (combos : Option (List (String × List String))) (args : Args) (ext : ExtEnv)
    (num fuel nid : ℕ) (g : Rng) :
    (add_random_objects pr combos args ext num fuel nid g).trace.countP Ev.isInvoke = 0 ∧
    (add_random_objects pr combos args ext num fuel nid g).trace.countP Ev.isRel = 0 := by
  rcases heq : add_random_objects pr combos args ext num fuel nid g with ⟨tr, res, nid2, g2⟩
  obtain ⟨_, _, hmem⟩ := add_random_objects_spec pr combos args ext num fuel nid g
    tr res nid2 g2 heq
  constructor
  · rw [List.countP_eq_zero]
    intro e he
    simp [Ev.not_isInvoke_of_place (hmem e he)]
  · rw [List.countP_eq_zero]
    intro e he
    simp [Ev.not_isRel_of_place (hmem e he)]


/-- When the blender object count differs from 7, the camera loop only
renders: it never invokes placement, and the objects variable and count
pass through unchanged. -/
theorem render_loop_not_seven (pr : Properties)
    (combos : Option (List (String × List String))) (args : Args) (ext : ExtEnv)
    (fuel num : ℕ) :
    ∀ (iters : List (ℕ × ℕ)) (objects : Option (List PlacedObj)) (count nid : ℕ) (g : Rng),
      count ≠ 7 →
      (∀ e ∈ (render_loop pr combos args ext fuel num iters objects count nid g).1,
        Ev.isRender e = true) ∧
      (render_loop pr combos args ext fuel num iters objects count nid g).2 =
        .ok (objects, count) := by
  intro iters
  induction iters with
  | nil =>
    intro objects count nid g h
    simp only [render_loop]
    constructor
    · intro e he
      cases he
    · trivial
  | cons it rest ih =>
    intro objects count nid g h
    obtain ⟨j, i⟩ := it
    simp only [render_loop]
    rw [if_neg h]
    obtain ⟨ihmem, ihres⟩ := ih objects count nid g h
    refine ⟨?_, ihres⟩
    intro e he
    rcases List.mem_cons.mp he with rfl | he
    · rfl
    · exact ihmem e he

theorem render_count_invoke_zero {tr : List Ev} (h : ∀ e ∈ tr, Ev.isRender e = true) :
    tr.countP Ev.isInvoke = 0 := by
  rw [List.countP_eq_zero]
  intro e he
  have := h e he
  cases e <;> simp_all [Ev.isRender, Ev.isInvoke]

theorem render_count_rel_zero {tr : List Ev} (h : ∀ e ∈ tr, Ev.isRender e = true) :
    tr.countP Ev.isRel = 0 := by
  rw [List.countP_eq_zero]
  intro e he
  have := h e he
  cases e <;> simp_all [Ev.isRender, Ev.isRel]

/-- With at least one object requested, the camera loop invokes
placement at most once: the first invocation (which requires exactly 7
scene objects) raises the count to 7 + num_objects. -/
theorem render_loop_invoke_le_one (pr : Properties)
    (combos : Option (List (String × List String))) (args : Args) (ext : ExtEnv)
    (fuel num : ℕ) (hnum : 1 ≤ num) :
    ∀ (iters : List (ℕ × ℕ)) (objects : Option (List PlacedObj)) (count nid : ℕ) (g : Rng),
      (render_loop pr combos args ext fuel num iters objects count nid g).1.countP
        Ev.isInvoke ≤ 1 := by
  intro iters
  induction iters with
  | nil =>
    intro objects count nid g
    simp [render_loop]
  | cons it rest ih =>
    intro objects count nid g
    obtain ⟨j, i⟩ := it
    simp only [render_loop]
    by_cases h7 : count = 7
    · rw [if_pos h7]
      rcases ha : add_random_objects pr combos args ext num fuel nid g
        with ⟨tr, res, nid2, g2⟩
      have hinv0 : tr.countP Ev.isInvoke = 0 := by
        have := add_random_objects_trace_counts pr combos args ext num fuel nid g
        rw [ha] at this
        exact this.1
      cases res with
      | error e =>
        dsimp only
        rw [List.countP_cons_of_pos _ _ (by rfl)]
        omega
      | ok val =>
        obtain ⟨objs, bos, poss⟩ := val
        dsimp only
        obtain ⟨hok, _, _⟩ := add_random_objects_spec pr combos args ext num fuel nid g
          tr (.ok (objs, bos, poss)) nid2 g2 ha
        obtain ⟨_, hblen, _⟩ := hok objs bos poss rfl
        have hne : count + bos.length ≠ 7 := by omega
        obtain ⟨hmem, _⟩ := render_loop_not_seven pr combos args ext fuel num rest
          (some objs) (count + bos.length) nid2 g2 hne
        have hrest0 : (render_loop pr combos args ext fuel num rest (some objs)
            (count + bos.length) nid2 g2).1.countP Ev.isInvoke = 0 :=
          render_count_invoke_zero hmem
        rw [List.countP_cons_of_pos _ _ (by rfl), List.countP_append,
          List.countP_cons_of_neg _ _ (by exact fun h => Bool.noConfusion h), hinv0, hrest0]
    · rw [if_neg h7]
      dsimp only
      rw [List.countP_cons_of_neg _ _ (by exact fun h => Bool.noConfusion h)]
      exact ih objects count nid g

/-- From a state with exactly 7 scene objects and a nonempty iteration
list, a successful camera loop invokes placement exactly once and leaves
the objects variable holding exactly num_objects records. -/
theorem render_loop_seven_ok (pr : Properties)
    (combos : Option (List (String × List String))) (args : Args) (ext : ExtEnv)
    (fuel num : ℕ) (hnum : 1 ≤ num) (j i : ℕ) (rest : List (ℕ × ℕ))
    (objects : Option (List PlacedObj)) (nid : ℕ) (g : Rng)
    (objres : Option (List PlacedObj)) (cnt : ℕ)
    (hres : (render_loop pr combos args ext fuel num ((j, i) :: rest) objects 7 nid g).2 =
      .ok (objres, cnt)) :
    (render_loop pr combos args ext fuel num ((j, i) :: rest) objects 7 nid g).1.countP
      Ev.isInvoke = 1 ∧
    ∃ l, objres = some l ∧ l.length = num := by
  simp only [render_loop, if_true, eq_self_iff_true] at hres ⊢
  rcases ha : add_random_objects pr combos args ext num fuel nid g
    with ⟨tr, res, nid2, g2⟩
  rw [ha] at hres
  have hinv0 : tr.countP Ev.isInvoke = 0 := by
    have := add_random_objects_trace_counts pr combos args ext num fuel nid g
    rw [ha] at this
    exact this.1
  cases res with
  | error e =>
    dsimp only at hres
    cases hres
  | ok val =>
    obtain ⟨objs, bos, poss⟩ := val
    dsimp only at hres ⊢
    obtain ⟨hok, _, _⟩ := add_random_objects_spec pr combos args ext num fuel nid g
      tr (.ok (objs, bos, poss)) nid2 g2 ha
    obtain ⟨holen, hblen, _⟩ := hok objs bos poss rfl
    have hne : 7 + bos.length ≠ 7 := by omega
    obtain ⟨hmem, hres2⟩ := render_loop_not_seven pr combos args ext fuel num rest
      (some objs) (7 + bos.length) nid2 g2 hne
    rw [hres2] at hres
    injection hres with hres
    injection hres with hres1 hres2b
    constructor
    · have hrest0 : (render_loop pr combos args ext fuel num rest (some objs)
          (7 + bos.length) nid2 g2).1.countP Ev.isInvoke = 0 :=
        render_count_invoke_zero hmem
      rw [List.countP_cons_of_pos _ _ (by rfl), List.countP_append,
        List.countP_cons_of_neg _ _ (by exact fun h => Bool.noConfusion h), hinv0, hrest0]
    · exact ⟨objs, hres1.symm, holen⟩

/-- The camera loop never performs relationship inference. -/
theorem render_loop_no_rel (pr : Properties)
    (combos : Option (List (String × List String))) (args : Args) (ext : ExtEnv)
    (fuel num : ℕ) :
    ∀ (iters : List (ℕ × ℕ)) (objects : Option (List PlacedObj)) (count nid : ℕ) (g : Rng),
      (render_loop pr combos args ext fuel num iters objects count nid g).1.countP
        Ev.isRel = 0 := by
  intro iters
  induction iters with
  | nil =>
    intro objects count nid g
    simp [render_loop]
  | cons it rest ih =>
    intro objects count nid g
    obtain ⟨j, i⟩ := it
    simp only [render_loop]
    by_cases h7 : count = 7
    · rw [if_pos h7]
      rcases ha : add_random_objects pr combos args ext num fuel nid g
        with ⟨tr, res, nid2, g2⟩
      have hrel0 : tr.countP Ev.isRel = 0 := by
        have := add_random_objects_trace_counts pr combos args ext num fuel nid g
        rw [ha] at this
        exact this.2
      cases res with
      | error e =>
        dsimp only
        rw [List.countP_cons_of_neg _ _ (by exact fun h => Bool.noConfusion h), hrel0]
      | ok val =>
        obtain ⟨objs, bos, poss⟩ := val
        dsimp only
        rw [List.countP_cons_of_neg _ _ (by exact fun h => Bool.noConfusion h), List.countP_append,
          List.countP_cons_of_neg _ _ (by exact fun h => Bool.noConfusion h), hrel0,
          ih (some objs) (count + bos.length) nid2 g2]
    · rw [if_neg h7]
      dsimp only
      rw [List.countP_cons_of_neg _ _ (by exact fun h => Bool.noConfusion h)]
      exact ih objects count nid g

theorem render_iters_of_lt (N : ℕ) (h : N < 8) : render_iters N = [] := by
  unfold render_iters num_heights
  rw [Nat.div_eq_of_lt h]
  simp

theorem render_iters_cons (N : ℕ) (h : 8 ≤ N) :
    ∃ rest, render_iters N = (0, 0) :: rest := by
  unfold render_iters num_heights
  obtain ⟨m, hm⟩ : ∃ m, N / 8 = m + 1 := by
    have h1 : 1 ≤ N / 8 := Nat.one_le_div_iff (by norm_num) |>.mpr h
    exact ⟨N / 8 - 1, by omega⟩
  have h8 : List.range 8 = 0 :: (List.range 7).map Nat.succ := List.range_succ_eq_map 7
  have hrange : List.range (m + 1) = 0 :: (List.range m).map Nat.succ :=
    List.range_succ_eq_map m
  rw [hm, h8, List.map_cons, List.flatten_cons]
  rw [hrange, List.map_cons, List.cons_append]
  exact ⟨_, rfl⟩

/-- Claim C6 (amended): render_scene never runs relationship inference:
compute_all_relationships is defined at source lines 398-422 but no call
to it occurs anywhere in the camera loop or elsewhere in render_scene,
for any arguments and any run. -/
theorem c6_no_relationship_inference (pr : Properties)
    (combos : Option (List (String × List String))) (args : Args) (ext : ExtEnv)
    (fuel num baseCount : ℕ) (g : Rng) :
    (render_scene pr combos args ext fuel num baseCount g).1.countP Ev.isRel = 0 :=
  render_loop_no_rel pr combos args ext fuel num _ none baseCount 0 g

/-- Claim C6 counterexample: in a concrete full run of render_scene
(which does place objects and renders eight frames) relationship
inference is executed zero times, not exactly once as claimed. -/
theorem c6_counterexample :
    ¬ ((render_scene propsCube none argsSimple extFix 2 1 7 rngHalf).1.countP
      Ev.isRel = 1) := by
  have h : (render_scene propsCube none argsSimple extFix 2 1 7 rngHalf).1.countP
      Ev.isRel = 0 := by
    with_unfolding_all rfl
  rw [h]
  decide

/-- Claim C10: add_random_objects is invoked in a camera iteration only
when the blender scene holds exactly 7 objects.  Consequently: with at
least one object requested, placement happens at most once per
render_scene call; when the base count differs from 7, or fewer than 8
cameras are requested (so the inner loop body never runs), nothing is
ever placed and the objects variable stays None; and from a base count
of exactly 7 with at least 8 cameras, a successful run invokes placement
exactly once and ends with the objects variable holding exactly
num_objects records. -/
theorem c10_placement_guard (pr : Properties)
    (combos : Option (List (String × List String))) (args : Args) (ext : ExtEnv)
    (fuel num baseCount : ℕ) (g : Rng) :
    (1 ≤ num →
      (render_scene pr combos args ext fuel num baseCount g).1.countP Ev.isInvoke ≤ 1) ∧
    (baseCount ≠ 7 →
      (render_scene pr combos args ext fuel num baseCount g).1.countP Ev.isInvoke = 0 ∧
      (render_scene pr combos args ext fuel num baseCount g).2 = .ok (none, baseCount)) ∧
    (args.num_cams < 8 →
      (render_scene pr combos args ext fuel num baseCount g).1 = [] ∧
      (render_scene pr combos args ext fuel num baseCount g).2 = .ok (none, baseCount)) ∧
    (baseCount = 7 → 8 ≤ args.num_cams → 1 ≤ num →
      ∀ objres cnt,
        (render_scene pr combos args ext fuel num baseCount g).2 = .ok (objres, cnt) →
        (render_scene pr combos args ext fuel num baseCount g).1.countP Ev.isInvoke = 1 ∧
        ∃ l, objres = some l ∧ l.length = num) := by
  refine ⟨?_, ?_, ?_, ?_⟩
  · intro hnum
    exact render_loop_invoke_le_one pr combos args ext fuel num hnum _ none baseCount 0 g
  · intro hb
    obtain ⟨hmem, hres⟩ := render_loop_not_seven pr combos args ext fuel num
      (render_iters args.num_cams) none baseCount 0 g hb
    exact ⟨render_count_invoke_zero hmem, hres⟩
  · intro hlt
    unfold render_scene
    rw [render_iters_of_lt _ hlt]
    exact ⟨rfl, rfl⟩
  · intro hb h8 hnum objres cnt hres
    subst hb
    obtain ⟨rest, hiter⟩ := render_iters_cons args.num_cams h8
    unfold render_scene at hres ⊢
    rw [hiter] at hres ⊢
    exact render_loop_seven_ok pr combos args ext fuel num hnum 0 0 rest none 0 g
      objres cnt hres

theorem c10_witness :
    (7 : ℕ) = 7 ∧ 8 ≤ argsSimple.num_cams ∧ (1 : ℕ) ≤ 1 ∧
    ∃ objres cnt,
      (render_scene propsCube none argsSimple extFix 2 1 7 rngHalf).2 = .ok (objres, cnt) ∧
      ((render_scene propsCube none argsSimple extFix 2 1 7 rngHalf).1.countP
          Ev.isInvoke = 1 ∧
        ∃ l, objres = some l ∧ l.length = 1) := by
  have hres : (render_scene propsCube none argsSimple extFix 2 1 7 rngHalf).2 =
      .ok (some [⟨"cube", "large", "rubber", (0, 0, 0), 180, (0, 0), "red"⟩], 8) := by
    with_unfolding_all rfl
  refine ⟨rfl, by norm_num [argsSimple], by norm_num, _, _, hres, ?_⟩
  exact (c10_placement_guard propsCube none argsSimple extFix 2 1 7 rngHalf).2.2.2 rfl
    (by norm_num [argsSimple]) (by norm_num) _ _ hres
